import Mathlib

/-!
Shallow embedding of the WebChess Pro chess engine
(src/scripts/engine.js, class ChessEngine) and its AI search
(src/unnamed/part_005, class ChessAI), together with theorems settling
the frozen claims about the natural-language specification.

Conventions of the embedding:
* A JS two-character piece token ("wP", "bK", ...) is embedded as a
  `Piece` value: a pair of a `Color` and a `PType`.
* The JS 64-element board array (`null` for an empty cell) is embedded
  as a `List (Option Piece)` of length 64 (`Board`); `cell b i` is
  `b[i]` (out-of-range reads give `none`, as JS gives `undefined`).
  Every branch and the order of every emitted move follow the JS
  source, not the specification text. For the large concrete perft
  computation a second, kernel-efficient engine over a base-16-packed
  `Nat` board is defined further below and proved move-for-move
  equivalent to this one.
* JS numbers used as square coordinates are `Int` during row/file
  arithmetic (they may go negative mid-computation) and `Nat` as square
  indices, exactly following the guards (`isValid`) of the source.
* The JS `while` ray-marching loops are bounded recursions with fuel 8:
  on an 8×8 board a ray can take at most 7 steps, so the fuel never
  runs out inside the valid region.
* Strings built by the engine (FEN, SAN) are embedded as `List Char`
  (the `data` of the JS string), which keeps proofs structural.
-/

namespace Chess

inductive Color where
  | w
  | b
deriving DecidableEq, Repr, Fintype

inductive PType where
  | P
  | N
  | B
  | R
  | Q
  | K
deriving DecidableEq, Repr, Fintype

structure Piece where
  color : Color
  ptype : PType
deriving DecidableEq, Repr, Fintype

/-- The board as the JS source stores it: 64 optional pieces, row-major
from a8 (index 0) to h1 (index 63). -/
abbrev Board : Type := List (Option Piece)

/-- Board cell read `board[i]` (JS `undefined` out of range becomes `none`). -/
def cell (b : Board) (i : Nat) : Option Piece :=
  List.getD b i none

/-- `ChessEngine.idx(r, f)` for in-range coordinates (also the write index of `loadFEN`). -/
def sqIdx (r f : Int) : Nat := (r * 8 + f).toNat

/-- `ChessEngine.row(i)`. -/
def rowOf (i : Nat) : Nat := i / 8

/-- `ChessEngine.col(i)`. -/
def colOf (i : Nat) : Nat := i % 8

/-- `ChessEngine.opp(c)`. -/
def opp : Color → Color
  | Color.w => Color.b
  | Color.b => Color.w

/-- `ChessEngine.isValid(r, f)`. -/
def isValid (r f : Int) : Bool :=
  decide (0 ≤ r) && decide (r < 8) && decide (0 ≤ f) && decide (f < 8)

/-- The castling-rights record `{wK, wQ, bK, bQ}`. -/
structure CastlingRights where
  wK : Bool
  wQ : Bool
  bK : Bool
  bQ : Bool
deriving DecidableEq, Repr

inductive MoveType where
  | normal
  | capture
  | doublePush
  | enPassant
  | promotion
  | promotionCapture
  | castleKing
  | castleQueen
deriving DecidableEq, Repr

/--
A move object as built by `getPseudoMoves` / `_getCastlingMoves`.
`from` is a Lean keyword, so the JS fields `from`/`to` are `fromSq`/`toSq`.
The JS fields `rookFrom`, `rookTo`, `capturedSq` are `undefined` except on
the move kinds that set them; here they default to 0 and are only ever
read on those kinds, mirroring the source's access pattern.
-/
structure Move where
  fromSq : Nat
  toSq : Nat
  type : MoveType
  promoteTo : Option Piece := none
  rookFrom : Nat := 0
  rookTo : Nat := 0
  capturedSq : Nat := 0
deriving DecidableEq, Repr

/-- `ChessEngine._startBoard()`. -/
def _startBoard : Board :=
  let backRank : List PType := [PType.R, PType.N, PType.B, PType.Q, PType.K, PType.B, PType.N, PType.R]
  (backRank.map (fun t => some ⟨Color.b, t⟩))
    ++ (List.replicate 8 (some ⟨Color.b, PType.P⟩))
    ++ (List.replicate 32 none)
    ++ (List.replicate 8 (some ⟨Color.w, PType.P⟩))
    ++ (backRank.map (fun t => some ⟨Color.w, t⟩))

/-- The body of the `addSlide` while-loop of `getPseudoMoves`; fuel 8 bounds the ray. -/
def slideGo (board : Board) (color : Color) (fromSq : Nat) (dr df : Int) :
    Nat → Int → Int → List Move
  | 0, _, _ => []
  | fuel + 1, nr, nf =>
    if isValid nr nf then
      let tSq := sqIdx nr nf
      match cell board tSq with
      | none =>
        { fromSq := fromSq, toSq := tSq, type := MoveType.normal }
          :: slideGo board color fromSq dr df fuel (nr + dr) (nf + df)
      | some p =>
        if p.color ≠ color then
          [{ fromSq := fromSq, toSq := tSq, type := MoveType.capture }]
        else []
    else []

/-- `addSlide(dr, df)` inside `getPseudoMoves`. -/
def addSlide (board : Board) (color : Color) (fromSq : Nat) (r f dr df : Int) : List Move :=
  slideGo board color fromSq dr df 8 (r + dr) (f + df)

/-- `addStep(dr, df)` inside `getPseudoMoves`. -/
def addStep (board : Board) (color : Color) (fromSq : Nat) (r f dr df : Int) : List Move :=
  let nr := r + dr
  let nf := f + df
  if isValid nr nf then
    let tSq := sqIdx nr nf
    match cell board tSq with
    | none => [{ fromSq := fromSq, toSq := tSq, type := MoveType.normal }]
    | some p =>
      if p.color ≠ color then
        [{ fromSq := fromSq, toSq := tSq, type := MoveType.capture }]
      else []
  else []

/-- The four promotion pieces `["Q", "R", "B", "N"]` of the given color, in source order. -/
def promoPieces (c : Color) : List Piece :=
  [⟨c, PType.Q⟩, ⟨c, PType.R⟩, ⟨c, PType.B⟩, ⟨c, PType.N⟩]

/-- The knight jump offsets, in source order. -/
def knightJumps : List (Int × Int) :=
  [(-2, -1), (-2, 1), (-1, -2), (-1, 2), (1, -2), (1, 2), (2, -1), (2, 1)]

/-- The bishop ray directions, in source order. -/
def bishopDirs : List (Int × Int) := [(-1, -1), (-1, 1), (1, -1), (1, 1)]

/-- The rook ray directions, in source order. -/
def rookDirs : List (Int × Int) := [(-1, 0), (1, 0), (0, -1), (0, 1)]

/-- The queen/king direction offsets, in source order. -/
def royalDirs : List (Int × Int) :=
  [(-1, -1), (-1, 0), (-1, 1), (0, -1), (0, 1), (1, -1), (1, 0), (1, 1)]

/-- Pawn branch of `getPseudoMoves` (same push order as the source). -/
def pawnPseudoMoves (board : Board) (fromSq : Nat) (enPassantTarget : Option Nat)
    (color : Color) (r f : Int) : List Move :=
  let dir : Int := if color = Color.w then -1 else 1
  let start : Int := if color = Color.w then 6 else 1
  let promoRow : Int := if color = Color.w then 0 else 7
  let fwd := sqIdx (r + dir) f
  let forwardMoves :=
    if isValid (r + dir) f && (cell board fwd).isNone then
      (if r + dir = promoRow then
        (promoPieces color).map (fun pp =>
          { fromSq := fromSq, toSq := fwd, type := MoveType.promotion, promoteTo := some pp })
      else
        [{ fromSq := fromSq, toSq := fwd, type := MoveType.normal }])
      ++ (if r = start then
            let fwd2 := sqIdx (r + 2 * dir) f
            if (cell board fwd2).isNone then
              [{ fromSq := fromSq, toSq := fwd2, type := MoveType.doublePush }]
            else []
          else [])
    else []
  let captureAt (df : Int) : List Move :=
    if isValid (r + dir) (f + df) then
      let tSq := sqIdx (r + dir) (f + df)
      (match cell board tSq with
       | some p =>
         if p.color ≠ color then
           if r + dir = promoRow then
             (promoPieces color).map (fun pp =>
               { fromSq := fromSq, toSq := tSq, type := MoveType.promotionCapture,
                 promoteTo := some pp })
           else
             [{ fromSq := fromSq, toSq := tSq, type := MoveType.capture }]
         else []
       | none => [])
      ++ (if enPassantTarget = some tSq then
            [{ fromSq := fromSq, toSq := tSq, type := MoveType.enPassant,
               capturedSq := sqIdx r (f + df) }]
          else [])
    else []
  forwardMoves ++ captureAt (-1) ++ captureAt 1

/-- King-branch castling pushes of `getPseudoMoves` — kept exactly as in the
source, including its wrong square indices and the duplicated
`board[7] === null` test (the source comments the branch as a castling
index bug and redoes castling in `_getCastlingMoves`, but leaves the
branch in place). -/
def kingBranchCastles (board : Board) (fromSq : Nat) (cr : CastlingRights)
    (color : Color) : List Move :=
  if color = Color.w then
    (if cr.wK && (cell board 57).isNone && (cell board 58).isNone
        && cell board 56 = some ⟨Color.w, PType.R⟩ then
      [{ fromSq := fromSq, toSq := 58, type := MoveType.castleKing, rookFrom := 56, rookTo := 57 }]
    else [])
    ++ (if cr.wQ && (cell board 59).isNone && (cell board 60).isNone && (cell board 61).isNone
          && cell board 63 = some ⟨Color.w, PType.R⟩ then
      [{ fromSq := fromSq, toSq := 60, type := MoveType.castleQueen, rookFrom := 63, rookTo := 61 }]
    else [])
  else
    (if cr.bK && (cell board 1).isNone && (cell board 2).isNone
        && cell board 0 = some ⟨Color.b, PType.R⟩ then
      [{ fromSq := fromSq, toSq := 2, type := MoveType.castleKing, rookFrom := 0, rookTo := 1 }]
    else [])
    ++ (if cr.bQ && (cell board 5).isNone && (cell board 6).isNone && (cell board 7).isNone
          && (cell board 7).isNone && cell board 3 = some ⟨Color.b, PType.R⟩ then
      [{ fromSq := fromSq, toSq := 4, type := MoveType.castleQueen, rookFrom := 7, rookTo := 5 }]
    else [])

/-- `ChessEngine.getPseudoMoves(board, from, castlingRights, enPassantTarget, color)`. -/
def getPseudoMoves (board : Board) (fromSq : Nat) (castlingRights : CastlingRights)
    (enPassantTarget : Option Nat) (color : Color) : List Move :=
  match cell board fromSq with
  | none => []
  | some piece =>
    if piece.color ≠ color then []
    else
      let r : Int := rowOf fromSq
      let f : Int := colOf fromSq
      match piece.ptype with
      | PType.P => pawnPseudoMoves board fromSq enPassantTarget color r f
      | PType.N => (knightJumps.map (fun d => addStep board color fromSq r f d.1 d.2)).flatten
      | PType.B => (bishopDirs.map (fun d => addSlide board color fromSq r f d.1 d.2)).flatten
      | PType.R => (rookDirs.map (fun d => addSlide board color fromSq r f d.1 d.2)).flatten
      | PType.Q => (royalDirs.map (fun d => addSlide board color fromSq r f d.1 d.2)).flatten
      | PType.K =>
        (royalDirs.map (fun d => addStep board color fromSq r f d.1 d.2)).flatten
          ++ kingBranchCastles board fromSq castlingRights color

/-- `ChessEngine._getCastlingMoves(board, color, castlingRights)` (the corrected generator). -/
def _getCastlingMoves (board : Board) (color : Color) (castlingRights : CastlingRights) :
    List Move :=
  if color = Color.w then
    (if castlingRights.wK && (cell board 61).isNone && (cell board 62).isNone
        && cell board 63 = some ⟨Color.w, PType.R⟩ then
      [{ fromSq := 60, toSq := 62, type := MoveType.castleKing, rookFrom := 63, rookTo := 61 }]
    else [])
    ++ (if castlingRights.wQ && (cell board 57).isNone && (cell board 58).isNone
          && (cell board 59).isNone && cell board 56 = some ⟨Color.w, PType.R⟩ then
      [{ fromSq := 60, toSq := 58, type := MoveType.castleQueen, rookFrom := 56, rookTo := 59 }]
    else [])
  else
    (if castlingRights.bK && (cell board 5).isNone && (cell board 6).isNone
        && cell board 7 = some ⟨Color.b, PType.R⟩ then
      [{ fromSq := 4, toSq := 6, type := MoveType.castleKing, rookFrom := 7, rookTo := 5 }]
    else [])
    ++ (if castlingRights.bQ && (cell board 1).isNone && (cell board 2).isNone
          && (cell board 3).isNone && cell board 0 = some ⟨Color.b, PType.R⟩ then
      [{ fromSq := 4, toSq := 2, type := MoveType.castleQueen, rookFrom := 0, rookTo := 3 }]
    else [])

/-- One ray of the sliding-attack scan of `isAttacked` (fuel-bounded while loop):
returns true iff the first occupied square along `(dr, df)` holds a `byColor`
piece of kind `t1` or `t2`. -/
def slideAttackGo (board : Board) (byColor : Color) (t1 t2 : PType) (dr df : Int) :
    Nat → Int → Int → Bool
  | 0, _, _ => false
  | fuel + 1, ar, af =>
    if isValid ar af then
      match cell board (sqIdx ar af) with
      | some p =>
        decide (p = ⟨byColor, t1⟩ ∨ p = ⟨byColor, t2⟩)
      | none => slideAttackGo board byColor t1 t2 dr df fuel (ar + dr) (af + df)
    else false

/-- `ChessEngine.isAttacked(board, sq, byColor)`. -/
def isAttacked (board : Board) (sq : Nat) (byColor : Color) : Bool :=
  let r : Int := rowOf sq
  let f : Int := colOf sq
  let pawnDir : Int := if byColor = Color.w then 1 else -1
  let pawnHit :=
    [(-1 : Int), 1].any (fun df =>
      isValid (r + pawnDir) (f + df)
        && cell board (sqIdx (r + pawnDir) (f + df)) = some ⟨byColor, PType.P⟩)
  let knightHit :=
    knightJumps.any (fun d =>
      isValid (r + d.1) (f + d.2)
        && cell board (sqIdx (r + d.1) (f + d.2)) = some ⟨byColor, PType.N⟩)
  let diagHit :=
    bishopDirs.any (fun d =>
      slideAttackGo board byColor PType.B PType.Q d.1 d.2 8 (r + d.1) (f + d.2))
  let orthoHit :=
    rookDirs.any (fun d =>
      slideAttackGo board byColor PType.R PType.Q d.1 d.2 8 (r + d.1) (f + d.2))
  let kingHit :=
    royalDirs.any (fun d =>
      isValid (r + d.1) (f + d.2)
        && cell board (sqIdx (r + d.1) (f + d.2)) = some ⟨byColor, PType.K⟩)
  pawnHit || knightHit || diagHit || orthoHit || kingHit

/-- `ChessEngine.findKing(board, color)`: index of the first `color` king,
`none` embedding the JS `-1` not-found result. (The JS `findIndex` scans the
64-cell array front to back; over the cell interface this is the first
index below 64 whose cell holds the king.) -/
def findKing (board : Board) (color : Color) : Option Nat :=
  (List.range 64).find? (fun i => cell board i = some ⟨color, PType.K⟩)

/-- `ChessEngine.isInCheck(board, color)`. -/
def isInCheck (board : Board) (color : Color) : Bool :=
  match findKing board color with
  | none => false
  | some kingSq => isAttacked board kingSq (opp color)

/-- `ChessEngine.applyMoveToBoard(board, move)` (pure, returns a new board). -/
def applyMoveToBoard (board : Board) (m : Move) : Board :=
  let piece := cell board m.fromSq
  let b1 := board.set m.toSq (match m.promoteTo with | some pp => some pp | none => piece)
  let b2 := b1.set m.fromSq none
  let b3 := if m.type = MoveType.enPassant then b2.set m.capturedSq none else b2
  if m.type = MoveType.castleKing ∨ m.type = MoveType.castleQueen then
    (b3.set m.rookTo (cell b3 m.rookFrom)).set m.rookFrom none
  else b3

/-- The game result `{winner, reason}` stored by `_setGameOver`. -/
structure GameResult where
  winner : Option Color
  reason : List Char
deriving DecidableEq, Repr

/-- A committed `MoveRecord`: the found move spread together with the derived
facts attached by `makeMove`. -/
structure MoveRecord where
  move : Move
  piece : Option Piece
  captured : Option Piece
  san : List Char
  fen : List Char
  castlingRights : CastlingRights
  enPassantTarget : Option Nat
  isCheck : Bool
  isMate : Bool
  isStalemate : Bool
deriving DecidableEq, Repr

/-- The mutable fields of a `ChessEngine` instance (the `GameState`). The JS
`positionMap` object (insertion-ordered string keys to counts) is embedded
as an insertion-ordered association list. -/
structure Engine where
  board : Board
  turn : Color
  moveHistory : List MoveRecord
  castlingRights : CastlingRights
  enPassantTarget : Option Nat
  halfMoveClock : Nat
  fullMoveNumber : Nat
  positionMap : List (List Char × Nat)
  gameOver : Bool
  gameResult : Option GameResult
deriving DecidableEq, Repr

/-- `ChessEngine._getAllPseudoMoves(board, color, castlingRights, enPassantTarget)`. -/
def _getAllPseudoMoves (board : Board) (color : Color) (castlingRights : CastlingRights)
    (enPassantTarget : Option Nat) : List Move :=
  ((List.range 64).map (fun i =>
    match cell board i with
    | some p =>
      if p.color = color then getPseudoMoves board i castlingRights enPassantTarget color
      else []
    | none => [])).flatten
    ++ _getCastlingMoves board color castlingRights

/-- `ChessEngine._isLegal(move, color)` (reads `this.board` of the engine). -/
def _isLegal (e : Engine) (m : Move) (color : Color) : Bool :=
  let castleOk :=
    if m.type = MoveType.castleKing ∨ m.type = MoveType.castleQueen then
      if isInCheck e.board color then false
      else
        let passSquares :=
          if m.type = MoveType.castleKing then [m.fromSq + 1, m.fromSq + 2]
          else [m.fromSq - 1, m.fromSq - 2]
        passSquares.all (fun sq =>
          let testB := applyMoveToBoard e.board
            { fromSq := m.fromSq, toSq := sq, type := MoveType.normal }
          !(isAttacked testB sq (opp color)))
    else true
  castleOk && !(isInCheck (applyMoveToBoard e.board m) color)

/-- `ChessEngine.getLegalMoves(fromSq)`. -/
def getLegalMoves (e : Engine) (fromSq : Nat) : List Move :=
  let color := e.turn
  let pseudo := _getAllPseudoMoves e.board color e.castlingRights e.enPassantTarget
  ((pseudo.filter (fun m => m.fromSq = fromSq)).filter (fun m => _isLegal e m color))

/-- `ChessEngine.getAllLegalMoves()`. -/
def getAllLegalMoves (e : Engine) : List Move :=
  let color := e.turn
  let pseudo := _getAllPseudoMoves e.board color e.castlingRights e.enPassantTarget
  pseudo.filter (fun m => _isLegal e m color)

/-- `ChessEngine.applyMoveFull(move)`: the raw state-transition used by replay
and by the AI search (board, en-passant target, castling rights, turn). -/
def applyMoveFull (e : Engine) (m : Move) : Engine :=
  let piece := cell e.board m.fromSq
  let color := match piece with | some p => p.color | none => Color.b
  let ptype := match piece with | some p => some p.ptype | none => none
  let board := applyMoveToBoard e.board m
  let enPassantTarget : Option Nat :=
    if m.type = MoveType.doublePush then
      some (if color = Color.w then m.toSq + 8 else m.toSq - 8)
    else none
  let cr0 := e.castlingRights
  let cr1 :=
    if ptype = some PType.K then
      if color = Color.w then { cr0 with wK := false, wQ := false }
      else { cr0 with bK := false, bQ := false }
    else cr0
  let cr2 :=
    if ptype = some PType.R then
      let a := if m.fromSq = 56 then { cr1 with wQ := false } else cr1
      let b := if m.fromSq = 63 then { a with wK := false } else a
      let c := if m.fromSq = 0 then { b with bQ := false } else b
      if m.fromSq = 7 then { c with bK := false } else c
    else cr1
  { e with board := board, enPassantTarget := enPassantTarget,
           castlingRights := cr2, turn := opp color }

/-- Leaf-node count of the legal-move game tree: repeatedly take
`getAllLegalMoves` and apply each move (the state transition of a committed
move on the fields move generation reads: board, turn, rights, en passant —
exactly `applyMoveFull`). -/
def perft (e : Engine) : Nat → Nat
  | 0 => 1
  | d + 1 =>
    ((getAllLegalMoves e).map (fun m => perft (applyMoveFull e m) d)).foldl (· + ·) 0

/-- Uppercase piece letter of a kind (the `p[1]` character of the JS token). -/
def typeChar : PType → Char
  | PType.P => 'P'
  | PType.N => 'N'
  | PType.B => 'B'
  | PType.R => 'R'
  | PType.Q => 'Q'
  | PType.K => 'K'

/-- The piece-placement letter written by `toFEN` (upper case white, lower case black). -/
def pieceChar (p : Piece) : Char :=
  match p.color with
  | Color.w => typeChar p.ptype
  | Color.b => (typeChar p.ptype).toLower

/-- Decimal digit character for `n ≤ 9`. -/
def digitChar (n : Nat) : Char := Char.ofNat (48 + n)

/-- One rank of the FEN piece placement, with the pending `empty` counter of
the `toFEN` inner loop (flushed before each piece and at the row end). -/
def rankFEN : List (Option Piece) → Nat → List Char
  | [], 0 => []
  | [], n + 1 => [digitChar (n + 1)]
  | none :: rest, n => rankFEN rest (n + 1)
  | some p :: rest, 0 => pieceChar p :: rankFEN rest 0
  | some p :: rest, n + 1 => digitChar (n + 1) :: pieceChar p :: rankFEN rest 0

/-- The eight cells of rank `r` in file order (`board[idx(r, f)]`, `f = 0..7`). -/
def rowCells (b : Board) (r : Nat) : List (Option Piece) :=
  (List.range 8).map (fun f => cell b (r * 8 + f))

/-- Piece-placement field of `toFEN` (ranks joined by `/`). -/
def boardFEN (b : Board) : List Char :=
  List.intercalate ['/']
    ((List.range 8).map (fun r => rankFEN (rowCells b r) 0))

/-- Decimal digits of a Nat, most significant first (the JS number-to-string
coercion of the clock fields); the fuel argument bounds the division chain. -/
def natCharsAux : Nat → Nat → List Char
  | 0, _ => []
  | fuel + 1, n =>
    if n < 10 then [digitChar n]
    else natCharsAux fuel (n / 10) ++ [digitChar (n % 10)]

def natChars (n : Nat) : List Char := natCharsAux (n + 1) n

/-- `ChessEngine._sqToAlg(sq)`. -/
def _sqToAlg (sq : Nat) : List Char :=
  [Char.ofNat (97 + colOf sq), digitChar (8 - rowOf sq)]

/-- `ChessEngine.algToSq(alg)`. -/
def algToSq (l : List Char) : Nat :=
  let f := (l.getD 0 ' ').toNat - 97
  let r := 8 - ((l.getD 1 ' ').toNat - 48)
  r * 8 + f

/-- Castling field of `toFEN` (`KQkq` subset or `-`). -/
def castlingFEN (cr : CastlingRights) : List Char :=
  let s := (if cr.wK then ['K'] else []) ++ (if cr.wQ then ['Q'] else [])
    ++ (if cr.bK then ['k'] else []) ++ (if cr.bQ then ['q'] else [])
  if s = [] then ['-'] else s

/-- `ChessEngine.toFEN()`. -/
def toFEN (e : Engine) : List Char :=
  boardFEN e.board
    ++ [' '] ++ (match e.turn with | Color.w => ['w'] | Color.b => ['b'])
    ++ [' '] ++ castlingFEN e.castlingRights
    ++ [' '] ++ (match e.enPassantTarget with | some t => _sqToAlg t | none => ['-'])
    ++ [' '] ++ natChars e.halfMoveClock
    ++ [' '] ++ natChars e.fullMoveNumber

/-- `ChessEngine._fenCore()`: the reduced position key (first four FEN
fields: board, turn, castling rights, en-passant target; clocks excluded). -/
def _fenCore (e : Engine) : List Char :=
  List.intercalate [' '] (((toFEN e).splitOn ' ').take 4)

/-- `ChessEngine._recordPosition()`: bump the count of the current reduced
key in the insertion-ordered `positionMap` (increment in place if present,
append a fresh key with count 1 otherwise, as a JS object does). -/
def bumpPos : List (List Char × Nat) → List Char → List (List Char × Nat)
  | [], k => [(k, 1)]
  | (k0, c) :: rest, k =>
    if k0 = k then (k0, c + 1) :: rest else (k0, c) :: bumpPos rest k

def _recordPosition (e : Engine) : Engine :=
  { e with positionMap := bumpPos e.positionMap (_fenCore e) }

/-- `ChessEngine._isThreefoldRepetition()`. -/
def _isThreefoldRepetition (e : Engine) : Bool :=
  e.positionMap.any (fun kv => 3 ≤ kv.2)

/-- Piece of a placement letter; `none` for a character that is no piece
letter (the JS source would fabricate a junk token there — such characters
never occur in engine-produced FEN strings). -/
def charPiece (ch : Char) : Option Piece :=
  let isWhite := ch.toUpper = ch
  let color := if isWhite then Color.w else Color.b
  match ch.toUpper with
  | 'P' => some ⟨color, PType.P⟩
  | 'N' => some ⟨color, PType.N⟩
  | 'B' => some ⟨color, PType.B⟩
  | 'R' => some ⟨color, PType.R⟩
  | 'Q' => some ⟨color, PType.Q⟩
  | 'K' => some ⟨color, PType.K⟩
  | _ => none

/-- The row-loading loop of `loadFEN`: digits advance the file counter,
letters write a piece at `idx(r, f)`. -/
def loadRow (b : Board) (r : Nat) : List Char → Nat → Board
  | [], _ => b
  | ch :: rest, f =>
    if ch.isDigit then loadRow b r rest (f + (ch.toNat - 48))
    else loadRow (b.set (r * 8 + f) (charPiece ch)) r rest (f + 1)

/-- The full board-loading loop of `loadFEN` over the eight `/`-split rows. -/
def loadRows : Board → Nat → List (List Char) → Board
  | b, _, [] => b
  | b, r, row :: rest => loadRows (loadRow b r row 0) (r + 1) rest

/-- JS `parseInt` restricted to the all-digit numerals the engine itself
produces (reads a decimal digit string). -/
def parseNat (l : List Char) : Nat :=
  l.foldl (fun a c => a * 10 + (c.toNat - 48)) 0

/-- The field split of `loadFEN`: `fen.trim().split(/\s+/)` for the space
character (split on spaces, dropping empty fragments). -/
def splitFields (l : List Char) : List (List Char) :=
  (l.splitOn ' ').filter (fun p => p ≠ [])

/-- The result state of `ChessEngine.loadFEN(fen)`; `none` embeds the two
`throw` paths (fewer than 4 fields / not exactly 8 ranks). `loadFEN`
overwrites every engine field, so it needs no input state. -/
def loadFEN (fen : List Char) : Option Engine :=
  let parts := splitFields fen
  if parts.length < 4 then none
  else
    let rows := (parts.getD 0 []).splitOn '/'
    if rows.length ≠ 8 then none
    else
      let b := loadRows (List.replicate 64 none) 0 rows
      let e : Engine :=
        { board := b,
          turn := if parts.getD 1 [] = ['b'] then Color.b else Color.w,
          moveHistory := [],
          castlingRights :=
            { wK := (parts.getD 2 []).elem 'K', wQ := (parts.getD 2 []).elem 'Q',
              bK := (parts.getD 2 []).elem 'k', bQ := (parts.getD 2 []).elem 'q' },
          enPassantTarget :=
            if parts.getD 3 [] = ['-'] then none else some (algToSq (parts.getD 3 [])),
          halfMoveClock := parseNat (parts.getD 4 ['0']),
          fullMoveNumber := parseNat (parts.getD 5 ['1']),
          positionMap := [], gameOver := false, gameResult := none }
      some (_recordPosition e)

/-- `ChessEngine._getAmbiguous(move, piece)`. Called by `makeMove` after the
board has already been updated, so `this.board` here is the post-move board. -/
def _getAmbiguous (e : Engine) (m : Move) (piece : Option Piece) : List Char :=
  let color := match piece with | some p => p.color | none => Color.b
  let allMoves :=
    (_getAllPseudoMoves e.board color e.castlingRights e.enPassantTarget).filter
      (fun mm => mm.toSq = m.toSq ∧ cell e.board mm.fromSq = piece ∧ mm.fromSq ≠ m.fromSq)
  if allMoves = [] then []
  else
    let sameFile := allMoves.any (fun mm => colOf mm.fromSq = colOf m.fromSq)
    let sameRank := allMoves.any (fun mm => rowOf mm.fromSq = rowOf m.fromSq)
    if !sameFile then [Char.ofNat (97 + colOf m.fromSq)]
    else if !sameRank then [digitChar (8 - rowOf m.fromSq)]
    else _sqToAlg m.fromSq

/-- `ChessEngine._toSAN(move, piece, captured)` (invoked on the post-move
engine state, as in `makeMove`). A `none` moving piece cannot occur for a
committed move; that branch returns the empty string. -/
def _toSAN (e : Engine) (m : Move) (piece captured : Option Piece) : List Char :=
  let toAlg := _sqToAlg m.toSq
  if m.type = MoveType.castleKing then ['O', '-', 'O']
  else if m.type = MoveType.castleQueen then ['O', '-', 'O', '-', 'O']
  else
    match piece with
    | none => []
    | some p =>
      if p.ptype = PType.P then
        (if captured.isSome || m.type = MoveType.enPassant then
          [Char.ofNat (97 + colOf m.fromSq), 'x'] ++ toAlg
        else toAlg)
          ++ (match m.promoteTo with
              | some pp => ['='] ++ [typeChar pp.ptype]
              | none => [])
      else
        [typeChar p.ptype] ++ _getAmbiguous e m piece
          ++ (if captured.isSome then ['x'] else []) ++ toAlg

/-- `ChessEngine._setGameOver(winner, reason)`. -/
def _setGameOver (e : Engine) (winner : Option Color) (reason : List Char) : Engine :=
  { e with gameOver := true, gameResult := some ⟨winner, reason⟩ }

/-- `ChessEngine._isInsufficientMaterial()`. -/
def _isInsufficientMaterial (e : Engine) : Bool :=
  let pieces := e.board.filterMap id
  if pieces.length = 2 then true
  else
    let three :=
      pieces.length = 3
        && (pieces.find? (fun p => p.ptype = PType.N ∨ p.ptype = PType.B)).isSome
    if three then true
    else
      if pieces.length = 4 then
        let whites := pieces.filter (fun p => p.color = Color.w)
        let blacks := pieces.filter (fun p => p.color = Color.b)
        if whites.length = 2 ∧ blacks.length = 2 then
          match whites.find? (fun p => p.ptype = PType.B),
              blacks.find? (fun p => p.ptype = PType.B) with
          | some wb, some bb =>
            match e.board.findIdx? (fun c => c = some wb),
                e.board.findIdx? (fun c => c = some bb) with
            | some wbSq, some bbSq =>
              (rowOf wbSq + colOf wbSq) % 2 = (rowOf bbSq + colOf bbSq) % 2
            | _, _ => false
          | _, _ => false
        else false
      else false

/-- `ChessEngine._checkGameEnd(lastMove)`: conditions checked in source order;
the first that holds sets the game result. -/
def _checkGameEnd (e : Engine) (lastMove : MoveRecord) : Engine :=
  let color := e.turn
  if lastMove.isMate then _setGameOver e (some (opp color)) ("checkmate").data
  else if lastMove.isStalemate then _setGameOver e none ("stalemate").data
  else if 100 ≤ e.halfMoveClock then _setGameOver e none ("50-move rule").data
  else if _isThreefoldRepetition e then
    _setGameOver e none ("threefold repetition").data
  else if _isInsufficientMaterial e then
    _setGameOver e none ("insufficient material").data
  else e

/-- The candidate move object handed to `makeMove` (only `from`, `to` and
`promoteTo` of it are read). -/
structure Candidate where
  fromSq : Nat
  toSq : Nat
  promoteTo : Option Piece := none
deriving DecidableEq, Repr

/-- The match test of `makeMove`:
`m.from === move.from && m.to === move.to && (!move.promoteTo || m.promoteTo === move.promoteTo)`. -/
def candMatches (cand : Candidate) (m : Move) : Bool :=
  m.fromSq = cand.fromSq && m.toSq = cand.toSq
    && (cand.promoteTo = none || m.promoteTo = cand.promoteTo)

/-- `ChessEngine.makeMove(move)`: returns the move record (`false` embeds as
`none`) together with the updated engine state; the state is unchanged on
both rejection paths. The sequencing follows the source: board, en passant,
castling rights and clocks are updated, SAN and the record FEN are produced
(before the turn flips), the turn flips, check/mate/stalemate flags are
attached, the move is appended, the position recorded, and the game-end
detector runs. -/
def makeMove (e : Engine) (cand : Candidate) : Option MoveRecord × Engine :=
  if e.gameOver then (none, e)
  else
    let legal := getLegalMoves e cand.fromSq
    match legal.find? (fun m => candMatches cand m) with
    | none => (none, e)
    | some found =>
      let piece := cell e.board cand.fromSq
      let captured := cell e.board cand.toSq
      let color := match piece with | some p => p.color | none => Color.b
      let ptype := match piece with | some p => some p.ptype | none => none
      let board2 := applyMoveToBoard e.board found
      let ep2 : Option Nat :=
        if found.type = MoveType.doublePush then
          some (if color = Color.w then found.toSq + 8 else found.toSq - 8)
        else none
      let cr0 := e.castlingRights
      let cr1 :=
        if ptype = some PType.K then
          if color = Color.w then { cr0 with wK := false, wQ := false }
          else { cr0 with bK := false, bQ := false }
        else cr0
      let cr2 :=
        if ptype = some PType.R then
          let a := if found.fromSq = 56 then { cr1 with wQ := false } else cr1
          let b := if found.fromSq = 63 then { a with wK := false } else a
          let c := if found.fromSq = 0 then { b with bQ := false } else b
          if found.fromSq = 7 then { c with bK := false } else c
        else cr1
      let hm2 := if ptype = some PType.P || captured.isSome
          || found.type = MoveType.enPassant then 0 else e.halfMoveClock + 1
      let fm2 := if color = Color.b then e.fullMoveNumber + 1 else e.fullMoveNumber
      let e1 := { e with board := board2, enPassantTarget := ep2,
                         castlingRights := cr2, halfMoveClock := hm2,
                         fullMoveNumber := fm2 }
      let san := _toSAN e1 found piece captured
      let fen := toFEN e1
      let e2 := { e1 with turn := opp color }
      let isCheck := isInCheck e2.board e2.turn
      let isMate := isCheck && (getAllLegalMoves e2).length = 0
      let isStalemate := !isCheck && (getAllLegalMoves e2).length = 0
      let san2 := san ++ (if isCheck then (if isMate then ['#'] else ['+']) else [])
      let record : MoveRecord :=
        { move := found, piece := piece, captured := captured, san := san2,
          fen := fen, castlingRights := cr2, enPassantTarget := ep2,
          isCheck := isCheck, isMate := isMate, isStalemate := isStalemate }
      let e3 := { e2 with moveHistory := e2.moveHistory ++ [record] }
      let e4 := _recordPosition e3
      let e5 := _checkGameEnd e4 record
      (some record, e5)

/-- `ChessEngine.reset()`. -/
def reset : Engine :=
  _recordPosition
    { board := _startBoard, turn := Color.w, moveHistory := [],
      castlingRights := ⟨true, true, true, true⟩, enPassantTarget := none,
      halfMoveClock := 0, fullMoveNumber := 1, positionMap := [],
      gameOver := false, gameResult := none }

/-- The `positionMap` update of `undoMove`: `Object.keys(map).pop()` takes
the most recently inserted key; its count is decremented and the entry is
deleted when it reaches 0. An empty map is left unchanged. -/
def popPosition : List (List Char × Nat) → List (List Char × Nat)
  | [] => []
  | [(k, c)] => if c - 1 ≤ 0 then [] else [(k, c - 1)]
  | kv :: rest => kv :: popPosition rest

/-- `ChessEngine.undoMove()`: pops the last record; when history remains it
rebuilds the state from the previous record's stored FEN (`loadFEN`, which
also clears `moveHistory` and `positionMap`) and then overwrites the turn
with the opposite of the undone mover; on the last record it resets. The
`loadFEN` call cannot fail on a `makeMove`-produced record (its FEN always
parses); the `none` branch — the JS would propagate an exception — returns
the popped state unchanged. -/
def undoMove (e : Engine) : Option MoveRecord × Engine :=
  match e.moveHistory.getLast? with
  | none => (none, e)
  | some last =>
    let hist0 := e.moveHistory.dropLast
    let e1 := { e with moveHistory := hist0, positionMap := popPosition e.positionMap }
    match hist0.getLast? with
    | some prev =>
      let lastColor := match last.piece with | some p => p.color | none => Color.b
      match loadFEN prev.fen with
      | some e2 =>
        (some last, { e2 with turn := opp lastColor, gameOver := false, gameResult := none })
      | none => (some last, { e1 with gameOver := false, gameResult := none })
    | none =>
      (some last, { reset with moveHistory := [], gameOver := false, gameResult := none })

/-- `PIECE_VALUES`. -/
def PIECE_VALUES : PType → Nat
  | PType.P => 100
  | PType.N => 320
  | PType.B => 330
  | PType.R => 500
  | PType.Q => 900
  | PType.K => 20000

/-- `PST.P`. -/
def PST_P : List Int :=
  [0, 0, 0, 0, 0, 0, 0, 0, 50, 50, 50, 50, 50, 50, 50, 50, 10, 10, 20, 30, 30,
   20, 10, 10, 5, 5, 10, 25, 25, 10, 5, 5, 0, 0, 0, 20, 20, 0, 0, 0, 5, -5,
   -10, 0, 0, -10, -5, 5, 5, 10, 10, -20, -20, 10, 10, 5, 0, 0, 0, 0, 0, 0, 0, 0]

/-- `PST.N`. -/
def PST_N : List Int :=
  [-50, -40, -30, -30, -30, -30, -40, -50, -40, -20, 0, 0, 0, 0, -20, -40, -30,
   0, 10, 15, 15, 10, 0, -30, -30, 5, 15, 20, 20, 15, 5, -30, -30, 0, 15, 20,
   20, 15, 0, -30, -30, 5, 10, 15, 15, 10, 5, -30, -40, -20, 0, 5, 5, 0, -20,
   -40, -50, -40, -30, -30, -30, -30, -40, -50]

/-- `PST.B`. -/
def PST_B : List Int :=
  [-20, -10, -10, -10, -10, -10, -10, -20, -10, 0, 0, 0, 0, 0, 0, -10, -10, 0,
   5, 10, 10, 5, 0, -10, -10, 5, 5, 10, 10, 5, 5, -10, -10, 0, 10, 10, 10, 10,
   0, -10, -10, 10, 10, 10, 10, 10, 10, -10, -10, 5, 0, 0, 0, 0, 5, -10, -20,
   -10, -10, -10, -10, -10, -10, -20]

/-- `PST.R`. -/
def PST_R : List Int :=
  [0, 0, 0, 0, 0, 0, 0, 0, 5, 10, 10, 10, 10, 10, 10, 5, -5, 0, 0, 0, 0, 0, 0,
   -5, -5, 0, 0, 0, 0, 0, 0, -5, -5, 0, 0, 0, 0, 0, 0, -5, -5, 0, 0, 0, 0, 0,
   0, -5, -5, 0, 0, 0, 0, 0, 0, -5, 0, 0, 0, 5, 5, 0, 0, 0]

/-- `PST.Q`. -/
def PST_Q : List Int :=
  [-20, -10, -10, -5, -5, -10, -10, -20, -10, 0, 0, 0, 0, 0, 0, -10, -10, 0, 5,
   5, 5, 5, 0, -10, -5, 0, 5, 5, 5, 5, 0, -5, 0, 0, 5, 5, 5, 5, 0, -5, -10, 5,
   5, 5, 5, 5, 0, -10, -10, 0, 5, 0, 0, 0, 0, -10, -20, -10, -10, -5, -5, -10,
   -10, -20]

/-- `PST.K`. -/
def PST_K : List Int :=
  [-30, -40, -40, -50, -50, -40, -40, -30, -30, -40, -40, -50, -50, -40, -40,
   -30, -30, -40, -40, -50, -50, -40, -40, -30, -30, -40, -40, -50, -50, -40,
   -40, -30, -20, -30, -30, -40, -40, -30, -30, -20, -10, -20, -20, -20, -20,
   -20, -20, -10, 20, 20, 0, 0, 0, 0, 20, 20, 20, 30, 10, 0, 0, 10, 30, 20]

/-- `PST.K_END` (king endgame table). -/
def PST_K_END : List Int :=
  [-50, -40, -30, -20, -20, -30, -40, -50, -30, -20, -10, 0, 0, -10, -20, -30,
   -30, -10, 20, 30, 30, 20, -10, -30, -30, -10, 30, 40, 40, 30, -10, -30, -30,
   -10, 30, 40, 40, 30, -10, -30, -30, -10, 20, 30, 30, 20, -10, -30, -30, -30,
   0, 0, 0, 0, -30, -30, -50, -30, -30, -30, -30, -30, -30, -50]

/-- The table selection `PST[tableKey]` with
`tableKey = type === "K" && isEndgame ? "K_END" : type`. -/
def pstTable (isEndgame : Bool) : PType → List Int
  | PType.P => PST_P
  | PType.N => PST_N
  | PType.B => PST_B
  | PType.R => PST_R
  | PType.Q => PST_Q
  | PType.K => if isEndgame then PST_K_END else PST_K

/-- The `totalMat` accumulation of `evaluate()` (every piece counts,
kings included). -/
def totalMaterial (b : Board) : Nat :=
  b.foldl (fun a c => a + (match c with | some p => PIECE_VALUES p.ptype | none => 0)) 0

/-- The endgame test of `evaluate()`: `totalMat < 1500`. -/
def isEndgameOf (b : Board) : Bool :=
  totalMaterial b < 1500

/-- The piece loop and mobility bonus of `evaluate()`, with the endgame flag
passed in (the source computes it once before the loop). -/
def evaluateCore (e : Engine) (isEndgame : Bool) : ℚ :=
  let base : Int :=
    ((List.range 64).map (fun i =>
      match cell e.board i with
      | none => 0
      | some p =>
        let val : Int := PIECE_VALUES p.ptype
        let idx := match p.color with
          | Color.w => i
          | Color.b => 56 - i / 8 * 8 + i % 8
        let pst := (pstTable isEndgame p.ptype).getD (min idx 63) 0
        (match p.color with | Color.w => 1 | Color.b => -1) * (val + pst))).foldl (· + ·) 0
  let wMoves := (_getAllPseudoMoves e.board Color.w e.castlingRights e.enPassantTarget).length
  let bMoves := (_getAllPseudoMoves e.board Color.b e.castlingRights e.enPassantTarget).length
  (base : ℚ) + ((wMoves : ℚ) - (bMoves : ℚ)) * (1 / 10)

/-- `ChessEngine.evaluate()` (score in tenths of centipawn units; the JS
`0.1` is exact here). -/
def evaluate (e : Engine) : ℚ :=
  match e.gameResult with
  | some res =>
    (match res.winner with
     | none => 0
     | some Color.w => 99999
     | some Color.b => -99999)
  | none => evaluateCore e (isEndgameOf e.board)

/-! The AI search (`ChessAI`, src/unnamed/part_005). JS scores live in the
extended number line (`±Infinity` window bounds, finite evaluations), which
embeds as `WithBot (WithTop ℚ)`. The search works destructively on the live
engine with save/restore, embedded here by explicit state threading. -/

/-- The AI score line: rationals with `-Infinity` (`⊥`) and `+Infinity` (`⊤`). -/
abbrev Score : Type := WithBot (WithTop ℚ)

/-- Finite score. -/
def toScore (q : ℚ) : Score := ((q : WithTop ℚ) : Score)

/-- `ChessAI._saveState(engine)` (the eight saved fields). -/
structure SavedState where
  board : Board
  turn : Color
  castlingRights : CastlingRights
  enPassantTarget : Option Nat
  halfMoveClock : Nat
  fullMoveNumber : Nat
  gameOver : Bool
  gameResult : Option GameResult
deriving DecidableEq, Repr

def _saveState (e : Engine) : SavedState :=
  { board := e.board, turn := e.turn, castlingRights := e.castlingRights,
    enPassantTarget := e.enPassantTarget, halfMoveClock := e.halfMoveClock,
    fullMoveNumber := e.fullMoveNumber, gameOver := e.gameOver,
    gameResult := e.gameResult }

/-- `ChessAI._restoreState(engine, state)`. -/
def _restoreState (s : SavedState) (e : Engine) : Engine :=
  { e with board := s.board, turn := s.turn, castlingRights := s.castlingRights,
           enPassantTarget := s.enPassantTarget, halfMoveClock := s.halfMoveClock,
           fullMoveNumber := s.fullMoveNumber, gameOver := s.gameOver,
           gameResult := s.gameResult }

/-- `ChessAI._moveOrderScore(engine, move)` (MVV-LVA, promotion and
en-passant bonuses). -/
def _moveOrderScore (e : Engine) (m : Move) : Int :=
  let capScore : Int :=
    match cell e.board m.toSq with
    | some cap =>
      let attVal : Int :=
        match cell e.board m.fromSq with
        | some att => PIECE_VALUES att.ptype
        | none => 0
      10 * (PIECE_VALUES cap.ptype : Int) - attVal
    | none => 0
  let promoScore : Int :=
    match m.promoteTo with
    | some pp => PIECE_VALUES pp.ptype
    | none => 0
  let epScore : Int := if m.type = MoveType.enPassant then 100 else 0
  capScore + promoScore + epScore

/-- The move ordering of `_minimax` (`sort` by descending `_moveOrderScore`;
JS `Array.prototype.sort` is stable). -/
def sortByOrderScore (e : Engine) (moves : List Move) : List Move :=
  moves.mergeSort (fun a b => _moveOrderScore e b ≤ _moveOrderScore e a)

/-- The maximizing loop of `_minimax` (`best`/`alpha` updates, cutoff when
`beta ≤ alpha`); `recur` is the depth-decremented recursive call. -/
def abLoopMax (recur : Engine → Score → Score → (Score × Engine)) :
    List Move → Engine → Score → Score → Score → (Score × Engine)
  | [], e, best, _, _ => (best, e)
  | m :: rest, e, best, alpha, beta =>
    let saved := _saveState e
    let e1 := applyMoveFull e m
    let r := recur e1 alpha beta
    let e3 := _restoreState saved r.2
    let best2 := max best r.1
    let alpha2 := max alpha best2
    if beta ≤ alpha2 then (best2, e3)
    else abLoopMax recur rest e3 best2 alpha2 beta

/-- The minimizing loop of `_minimax`. -/
def abLoopMin (recur : Engine → Score → Score → (Score × Engine)) :
    List Move → Engine → Score → Score → Score → (Score × Engine)
  | [], e, best, _, _ => (best, e)
  | m :: rest, e, best, alpha, beta =>
    let saved := _saveState e
    let e1 := applyMoveFull e m
    let r := recur e1 alpha beta
    let e3 := _restoreState saved r.2
    let best2 := min best r.1
    let beta2 := min beta best2
    if beta2 ≤ alpha then (best2, e3)
    else abLoopMin recur rest e3 best2 alpha beta2

/-- `ChessAI._minimax(engine, depth, alpha, beta, isMaximizing)`, threading
the engine state that the JS mutates and restores. -/
def _minimax : Nat → Engine → Score → Score → Bool → (Score × Engine)
  | 0, e, _, _, _ => (toScore (evaluate e), e)
  | d + 1, e, alpha, beta, isMax =>
    if e.gameOver then (toScore (evaluate e), e)
    else
      let moves := getAllLegalMoves e
      if moves = [] then
        (if isInCheck e.board e.turn then
          (if isMax then toScore (-99999 - ((d : ℚ) + 1)) else toScore (99999 + ((d : ℚ) + 1)))
        else toScore 0, e)
      else
        let sorted := sortByOrderScore e moves
        if isMax then
          abLoopMax (fun e1 a b => _minimax d e1 a b false) sorted e ⊥ alpha beta
        else
          abLoopMin (fun e1 a b => _minimax d e1 a b true) sorted e ⊤ alpha beta

/-- The root-move comparison bit of `getBestMove` (`engine.board[a.to] ? 1 : 0`). -/
def captureBit (e : Engine) (m : Move) : Nat :=
  if (cell e.board m.toSq).isSome then 1 else 0

/-- The root loop of `getBestMove` (strict improvement updates `bestMove`). -/
def getBestMoveGo (recur : Engine → (Score × Engine)) (isMax : Bool) :
    List Move → Engine → Option Move → Score → (Option Move × Engine)
  | [], e, bestMove, _ => (bestMove, e)
  | m :: rest, e, bestMove, bestScore =>
    let saved := _saveState e
    let e1 := applyMoveFull e m
    let r := recur e1
    let e3 := _restoreState saved r.2
    if (if isMax then bestScore < r.1 else r.1 < bestScore) then
      getBestMoveGo recur isMax rest e3 (some m) r.1
    else
      getBestMoveGo recur isMax rest e3 bestMove bestScore

/-- `ChessAI.getBestMove(engine)` at search depth `maxDepth`. The
`_shuffleArray` call draws from `Math.random`; it is abstracted as the
`shuffle` argument (the theorems hold for every shuffle function). The JS
`this.running` flag never changes during the synchronous loop and its break
is dropped. -/
def getBestMove (maxDepth : Nat) (shuffle : List Move → List Move) (e : Engine) :
    Option Move × Engine :=
  if e.gameOver then (none, e)
  else
    let isMaximizing := e.turn = Color.w
    let moves := getAllLegalMoves e
    if moves = [] then (none, e)
    else
      let moves1 := shuffle moves
      let moves2 := moves1.mergeSort (fun a b => captureBit e b ≤ captureBit e a)
      getBestMoveGo (fun e1 => _minimax (maxDepth - 1) e1 ⊥ ⊤ (!isMaximizing))
        isMaximizing moves2 e none (if isMaximizing then ⊥ else ⊤)

/-- Modelled from the spec: the unpruned full minimax traversal of the same
legal-move tree, with the same evaluator, terminal scoring and move
ordering as `_minimax`, but no alpha-beta window (the reference value for
the alpha-beta equivalence property). -/
def minimaxFull : Nat → Engine → Bool → Score
  | 0, e, _ => toScore (evaluate e)
  | d + 1, e, isMax =>
    if e.gameOver then toScore (evaluate e)
    else
      let moves := getAllLegalMoves e
      if moves = [] then
        if isInCheck e.board e.turn then
          (if isMax then toScore (-99999 - ((d : ℚ) + 1)) else toScore (99999 + ((d : ℚ) + 1)))
        else toScore 0
      else
        let sorted := sortByOrderScore e moves
        if isMax then
          (sorted.map (fun m => minimaxFull d (applyMoveFull e m) false)).foldl max ⊥
        else
          (sorted.map (fun m => minimaxFull d (applyMoveFull e m) true)).foldl min ⊤

/-- The sequential cell writer realized by parsing one FEN rank: pieces are
written at consecutive indices, empty cells are skipped. -/
def writeSomes (b : Board) (pos : Nat) : List (Option Piece) → Board
  | [] => b
  | none :: rest => writeSomes b (pos + 1) rest
  | some p :: rest => writeSomes (b.set pos (some p)) (pos + 1) rest

/-- States reachable in play: the reset state and every state produced by a
committed `makeMove`. -/
inductive Reachable : Engine → Prop where
  | start : Reachable reset
  | step (e : Engine) (cand : Candidate) (r : MoveRecord) (e2 : Engine) :
      Reachable e → makeMove e cand = (some r, e2) → Reachable e2

/-- Structural well-formedness maintained by play: 64 board cells and an
en-passant square small enough for the algebraic encoding. -/
def WFE (e : Engine) : Prop :=
  e.board.length = 64 ∧ ∀ t, e.enPassantTarget = some t → t < 72


/-! Fast engine: board packed in a Nat (4 bits per square), recursion via raw
recursors so the kernel avoids `brecOn` overhead. Structure parallels the
faithful engine function-for-function. -/

/-- Piece code: 0 empty, 1-6 white P N B R Q K, 7-12 black P N B R Q K. -/
def pieceCode : Option Piece → Nat
  | none => 0
  | some ⟨Color.w, PType.P⟩ => 1
  | some ⟨Color.w, PType.N⟩ => 2
  | some ⟨Color.w, PType.B⟩ => 3
  | some ⟨Color.w, PType.R⟩ => 4
  | some ⟨Color.w, PType.Q⟩ => 5
  | some ⟨Color.w, PType.K⟩ => 6
  | some ⟨Color.b, PType.P⟩ => 7
  | some ⟨Color.b, PType.N⟩ => 8
  | some ⟨Color.b, PType.B⟩ => 9
  | some ⟨Color.b, PType.R⟩ => 10
  | some ⟨Color.b, PType.Q⟩ => 11
  | some ⟨Color.b, PType.K⟩ => 12

def fcell (b i : Nat) : Nat := b / 16 ^ i % 16

def fset (b i c : Nat) : Nat :=
  if i < 64 then b / 16 ^ (i + 1) * 16 ^ (i + 1) + c * 16 ^ i + b % 16 ^ i else b

def packBoard (l : Board) : Nat :=
  l.foldr (fun c acc => pieceCode c + 16 * acc) 0

/-- Code of a `color` piece of kind coded `t0` (t0 in 1..6). -/
def colorCode (color : Color) (t0 : Nat) : Nat :=
  match color with
  | Color.w => t0
  | Color.b => t0 + 6

/-- Does code `c` hold a piece of color `color`? (0 = empty holds neither.) -/
def codeIsColor (c : Nat) (color : Color) : Bool :=
  match color with
  | Color.w => 1 ≤ c && c ≤ 6
  | Color.b => 7 ≤ c

/- Recursor-based list combinators (kernel-cheap equivalents of the
List functions used by the faithful engine). -/

def fAppend {α : Type} (l1 l2 : List α) : List α :=
  @List.rec α (fun _ => List α) l2 (fun a _ ih => a :: ih) l1

def fAny {α : Type} (p : α → Bool) (l : List α) : Bool :=
  @List.rec α (fun _ => Bool) false (fun a _ ih => p a || ih) l

def fAll {α : Type} (p : α → Bool) (l : List α) : Bool :=
  @List.rec α (fun _ => Bool) true (fun a _ ih => p a && ih) l

def fMap {α β : Type} (g : α → β) (l : List α) : List β :=
  @List.rec α (fun _ => List β) [] (fun a _ ih => g a :: ih) l

def fFilter {α : Type} (p : α → Bool) (l : List α) : List α :=
  @List.rec α (fun _ => List α) [] (fun a _ ih => if p a then a :: ih else ih) l

def fSum {α : Type} (g : α → Nat) (l : List α) : Nat :=
  @List.rec α (fun _ => Nat) 0 (fun a _ ih => g a + ih) l

/-- `count`-fold loop over indices `i, i+1, ...` flattening `g` outputs. -/
def fIdxFlat {α : Type} (g : Nat → List α) (count i : Nat) : List α :=
  @Nat.rec (fun _ => Nat → List α) (fun _ => [])
    (fun _ ih j => fAppend (g j) (ih (j + 1))) count i

/-- First index `j` in `i, ..., i+count-1` satisfying `p`. -/
def fFindIdx (p : Nat → Bool) (count i : Nat) : Option Nat :=
  @Nat.rec (fun _ => Nat → Option Nat) (fun _ => none)
    (fun _ ih j => if p j then some j else ih (j + 1)) count i

/- Movement. -/

def fFlatDirs {α : Type} (g : α → List Move) (l : List α) : List Move :=
  @List.rec α (fun _ => List Move) [] (fun a _ ih => fAppend (g a) ih) l

def fSlideGo (b : Nat) (color : Color) (fromSq : Nat) (dr df : Int) :
    Nat → Int → Int → List Move :=
  fun fuel =>
    @Nat.rec (fun _ => Int → Int → List Move) (fun _ _ => [])
      (fun _ ih nr nf =>
        if isValid nr nf then
          let tSq := sqIdx nr nf
          let c := fcell b tSq
          if c == 0 then
            { fromSq := fromSq, toSq := tSq, type := MoveType.normal } :: ih (nr + dr) (nf + df)
          else if codeIsColor c color then []
          else [{ fromSq := fromSq, toSq := tSq, type := MoveType.capture }]
        else []) fuel

def fAddSlide (b : Nat) (color : Color) (fromSq : Nat) (r f dr df : Int) : List Move :=
  fSlideGo b color fromSq dr df 8 (r + dr) (f + df)

def fAddStep (b : Nat) (color : Color) (fromSq : Nat) (r f dr df : Int) : List Move :=
  let nr := r + dr
  let nf := f + df
  if isValid nr nf then
    let tSq := sqIdx nr nf
    let c := fcell b tSq
    if c == 0 then [{ fromSq := fromSq, toSq := tSq, type := MoveType.normal }]
    else if codeIsColor c color then []
    else [{ fromSq := fromSq, toSq := tSq, type := MoveType.capture }]
  else []

def fPawnMoves (b : Nat) (fromSq : Nat) (enPassantTarget : Option Nat)
    (color : Color) (r f : Int) : List Move :=
  let dir : Int := if color = Color.w then -1 else 1
  let start : Int := if color = Color.w then 6 else 1
  let promoRow : Int := if color = Color.w then 0 else 7
  let fwd := sqIdx (r + dir) f
  let forwardMoves :=
    if isValid (r + dir) f && (fcell b fwd == 0) then
      fAppend
        (if r + dir = promoRow then
          fMap (fun pp =>
            { fromSq := fromSq, toSq := fwd, type := MoveType.promotion, promoteTo := some pp })
            (promoPieces color)
        else
          [{ fromSq := fromSq, toSq := fwd, type := MoveType.normal }])
        (if r = start then
            let fwd2 := sqIdx (r + 2 * dir) f
            if fcell b fwd2 == 0 then
              [{ fromSq := fromSq, toSq := fwd2, type := MoveType.doublePush }]
            else []
          else [])
    else []
  let captureAt (df : Int) : List Move :=
    if isValid (r + dir) (f + df) then
      let tSq := sqIdx (r + dir) (f + df)
      let c := fcell b tSq
      fAppend
        (if c == 0 then []
         else if codeIsColor c color then []
         else if r + dir = promoRow then
           fMap (fun pp =>
             { fromSq := fromSq, toSq := tSq, type := MoveType.promotionCapture,
               promoteTo := some pp }) (promoPieces color)
         else [{ fromSq := fromSq, toSq := tSq, type := MoveType.capture }])
        (match enPassantTarget with
         | some t => if t == tSq then
             [{ fromSq := fromSq, toSq := tSq, type := MoveType.enPassant,
                capturedSq := sqIdx r (f + df) }]
           else []
         | none => [])
    else []
  fAppend forwardMoves (fAppend (captureAt (-1)) (captureAt 1))

def fKingBranchCastles (b : Nat) (fromSq : Nat) (cr : CastlingRights)
    (color : Color) : List Move :=
  match color with
  | Color.w =>
    fAppend
      (if cr.wK && (fcell b 57 == 0) && (fcell b 58 == 0) && (fcell b 56 == 4) then
        [{ fromSq := fromSq, toSq := 58, type := MoveType.castleKing, rookFrom := 56, rookTo := 57 }]
      else [])
      (if cr.wQ && (fcell b 59 == 0) && (fcell b 60 == 0) && (fcell b 61 == 0)
          && (fcell b 63 == 4) then
        [{ fromSq := fromSq, toSq := 60, type := MoveType.castleQueen, rookFrom := 63, rookTo := 61 }]
      else [])
  | Color.b =>
    fAppend
      (if cr.bK && (fcell b 1 == 0) && (fcell b 2 == 0) && (fcell b 0 == 10) then
        [{ fromSq := fromSq, toSq := 2, type := MoveType.castleKing, rookFrom := 0, rookTo := 1 }]
      else [])
      (if cr.bQ && (fcell b 5 == 0) && (fcell b 6 == 0) && (fcell b 7 == 0)
          && (fcell b 7 == 0) && (fcell b 3 == 10) then
        [{ fromSq := fromSq, toSq := 4, type := MoveType.castleQueen, rookFrom := 7, rookTo := 5 }]
      else [])

def fGetPseudoMoves (b : Nat) (fromSq : Nat) (cr : CastlingRights)
    (enPassantTarget : Option Nat) (color : Color) : List Move :=
  let c := fcell b fromSq
  if c == 0 then []
  else if !codeIsColor c color then []
  else
    let r : Int := rowOf fromSq
    let f : Int := colOf fromSq
    let t0 := if c ≤ 6 then c else c - 6
    if t0 == 1 then fPawnMoves b fromSq enPassantTarget color r f
    else if t0 == 2 then
      fFlatDirs (fun d => fAddStep b color fromSq r f d.1 d.2) knightJumps
    else if t0 == 3 then
      fFlatDirs (fun d => fAddSlide b color fromSq r f d.1 d.2) bishopDirs
    else if t0 == 4 then
      fFlatDirs (fun d => fAddSlide b color fromSq r f d.1 d.2) rookDirs
    else if t0 == 5 then
      fFlatDirs (fun d => fAddSlide b color fromSq r f d.1 d.2) royalDirs
    else
      fAppend (fFlatDirs (fun d => fAddStep b color fromSq r f d.1 d.2) royalDirs)
        (fKingBranchCastles b fromSq cr color)

def fGetCastlingMoves (b : Nat) (color : Color) (cr : CastlingRights) : List Move :=
  match color with
  | Color.w =>
    fAppend
      (if cr.wK && (fcell b 61 == 0) && (fcell b 62 == 0) && (fcell b 63 == 4) then
        [{ fromSq := 60, toSq := 62, type := MoveType.castleKing, rookFrom := 63, rookTo := 61 }]
      else [])
      (if cr.wQ && (fcell b 57 == 0) && (fcell b 58 == 0) && (fcell b 59 == 0)
          && (fcell b 56 == 4) then
        [{ fromSq := 60, toSq := 58, type := MoveType.castleQueen, rookFrom := 56, rookTo := 59 }]
      else [])
  | Color.b =>
    fAppend
      (if cr.bK && (fcell b 5 == 0) && (fcell b 6 == 0) && (fcell b 7 == 10) then
        [{ fromSq := 4, toSq := 6, type := MoveType.castleKing, rookFrom := 7, rookTo := 5 }]
      else [])
      (if cr.bQ && (fcell b 1 == 0) && (fcell b 2 == 0) && (fcell b 3 == 0)
          && (fcell b 0 == 10) then
        [{ fromSq := 4, toSq := 2, type := MoveType.castleQueen, rookFrom := 0, rookTo := 3 }]
      else [])

def fSlideAttackGo (b : Nat) (c1 c2 : Nat) (dr df : Int) : Nat → Int → Int → Bool :=
  fun fuel =>
    @Nat.rec (fun _ => Int → Int → Bool) (fun _ _ => false)
      (fun _ ih ar af =>
        if isValid ar af then
          let c := fcell b (sqIdx ar af)
          if c == 0 then ih (ar + dr) (af + df)
          else c == c1 || c == c2
        else false) fuel

def fIsAttacked (b : Nat) (sq : Nat) (byColor : Color) : Bool :=
  let r : Int := rowOf sq
  let f : Int := colOf sq
  let pawnDir : Int := if byColor = Color.w then 1 else -1
  let pCode := colorCode byColor 1
  let nCode := colorCode byColor 2
  let bCode := colorCode byColor 3
  let rCode := colorCode byColor 4
  let qCode := colorCode byColor 5
  let kCode := colorCode byColor 6
  let pawnHit :=
    fAny (fun df =>
      isValid (r + pawnDir) (f + df)
        && (fcell b (sqIdx (r + pawnDir) (f + df)) == pCode)) [(-1 : Int), 1]
  let knightHit :=
    fAny (fun d =>
      isValid (r + d.1) (f + d.2)
        && (fcell b (sqIdx (r + d.1) (f + d.2)) == nCode)) knightJumps
  let diagHit :=
    fAny (fun d => fSlideAttackGo b bCode qCode d.1 d.2 8 (r + d.1) (f + d.2)) bishopDirs
  let orthoHit :=
    fAny (fun d => fSlideAttackGo b rCode qCode d.1 d.2 8 (r + d.1) (f + d.2)) rookDirs
  let kingHit :=
    fAny (fun d =>
      isValid (r + d.1) (f + d.2)
        && (fcell b (sqIdx (r + d.1) (f + d.2)) == kCode)) royalDirs
  pawnHit || knightHit || diagHit || orthoHit || kingHit

def fFindKing (b : Nat) (color : Color) : Option Nat :=
  fFindIdx (fun i => fcell b i == colorCode color 6) 64 0

def fIsInCheck (b : Nat) (color : Color) : Bool :=
  match fFindKing b color with
  | none => false
  | some kingSq => fIsAttacked b kingSq (opp color)

def fApplyMoveToBoard (b : Nat) (m : Move) : Nat :=
  let c := fcell b m.fromSq
  let b1 := fset b m.toSq (match m.promoteTo with | some pp => pieceCode (some pp) | none => c)
  let b2 := fset b1 m.fromSq 0
  let b3 := if m.type = MoveType.enPassant then fset b2 m.capturedSq 0 else b2
  if m.type = MoveType.castleKing ∨ m.type = MoveType.castleQueen then
    fset (fset b3 m.rookTo (fcell b3 m.rookFrom)) m.rookFrom 0
  else b3

def fGetAllPseudoMoves (b : Nat) (color : Color) (cr : CastlingRights)
    (ep : Option Nat) : List Move :=
  fAppend
    (fIdxFlat (fun i =>
      let c := fcell b i
      if c == 0 then []
      else if codeIsColor c color then fGetPseudoMoves b i cr ep color
      else []) 64 0)
    (fGetCastlingMoves b color cr)

def fIsLegal (b : Nat) (m : Move) (color : Color) : Bool :=
  let castleOk :=
    if m.type = MoveType.castleKing ∨ m.type = MoveType.castleQueen then
      if fIsInCheck b color then false
      else
        let passSquares :=
          if m.type = MoveType.castleKing then [m.fromSq + 1, m.fromSq + 2]
          else [m.fromSq - 1, m.fromSq - 2]
        fAll (fun sq =>
          let testB := fApplyMoveToBoard b
            { fromSq := m.fromSq, toSq := sq, type := MoveType.normal }
          !(fIsAttacked testB sq (opp color))) passSquares
    else true
  castleOk && !(fIsInCheck (fApplyMoveToBoard b m) color)

def fGetAllLegalMoves (b : Nat) (turn : Color) (cr : CastlingRights)
    (ep : Option Nat) : List Move :=
  fFilter (fun m => fIsLegal b m turn) (fGetAllPseudoMoves b turn cr ep)

structure FState where
  board : Nat
  turn : Color
  castlingRights : CastlingRights
  enPassantTarget : Option Nat
deriving DecidableEq, Repr

def fApplyMoveFull (s : FState) (m : Move) : FState :=
  let c := fcell s.board m.fromSq
  let color := if codeIsColor c Color.w then Color.w else Color.b
  let board := fApplyMoveToBoard s.board m
  let enPassantTarget : Option Nat :=
    if m.type = MoveType.doublePush then
      some (if color = Color.w then m.toSq + 8 else m.toSq - 8)
    else none
  let cr0 := s.castlingRights
  let cr1 :=
    if c == 6 || c == 12 then
      if color = Color.w then { cr0 with wK := false, wQ := false }
      else { cr0 with bK := false, bQ := false }
    else cr0
  let cr2 :=
    if c == 4 || c == 10 then
      let a := if m.fromSq = 56 then { cr1 with wQ := false } else cr1
      let b2 := if m.fromSq = 63 then { a with wK := false } else a
      let c2 := if m.fromSq = 0 then { b2 with bQ := false } else b2
      if m.fromSq = 7 then { c2 with bK := false } else c2
    else cr1
  { board := board, turn := opp color, castlingRights := cr2,
    enPassantTarget := enPassantTarget }

def fPerft (d : Nat) : FState → Nat :=
  @Nat.rec (fun _ => FState → Nat) (fun _ => 1)
    (fun _ ih s =>
      fSum (fun m => ih (fApplyMoveFull s m))
        (fGetAllLegalMoves s.board s.turn s.castlingRights s.enPassantTarget)) d

def fStart : FState :=
  { board := packBoard _startBoard, turn := Color.w,
    castlingRights := ⟨true, true, true, true⟩, enPassantTarget := none }

/-- Correspondence between a packed board and the list board: bounded nibble
string, 64 cells, and pointwise equal piece codes. -/
abbrev BRel (b : Nat) (l : Board) : Prop :=
  b < 16 ^ 64 ∧ l.length = 64 ∧ ∀ i, fcell b i = pieceCode (cell l i)

/-- The fail-soft alpha-beta value relation between a search value `v` and
the true (unpruned) value `W` for a window `(a, b)`: inside the window the
value is exact, at or below `a` it upper-bounds `W`, at or above `b` it
lower-bounds `W`. -/
abbrev ABRel (v W a b : Score) : Prop :=
  (v ≤ a → W ≤ v) ∧ (a < v → v < b → v = W) ∧ (b ≤ v → v ≤ W)

/-! Concrete positions used by individual claims. -/

/-- An empty board. -/
def emptyBoard : Board := List.replicate 64 none

/-- Position for the castling path-safety claim: white Ke1 (60), Ra1 (56)
with the white king-side castling right set; black Rd8 (3) controls the
open d-file, black Kh8 (7). White is not in check and f1/g1/c1 are safe,
but d1 (59) is attacked. -/
def C2pos : Engine :=
  { board := ((((emptyBoard.set 3 (some ⟨Color.b, PType.R⟩)).set 7
        (some ⟨Color.b, PType.K⟩)).set 56 (some ⟨Color.w, PType.R⟩)).set 60
        (some ⟨Color.w, PType.K⟩)),
    turn := Color.w, moveHistory := [],
    castlingRights := ⟨true, false, false, false⟩, enPassantTarget := none,
    halfMoveClock := 0, fullMoveNumber := 1, positionMap := [],
    gameOver := false, gameResult := none }

/-- The leftover king-branch castling move generated in `C2pos`: labelled
king-side, but it runs e1 → c1 across the attacked d1. -/
def C2move : Move :=
  { fromSq := 60, toSq := 58, type := MoveType.castleKing, rookFrom := 56, rookTo := 57 }

/-- Position for the promotion-matching claim: white pawn a7 (8) about to
promote on a8 (0), white Ke1 (60), black Ke8 (4), white to move. -/
def C3pos : Engine :=
  { board := ((emptyBoard.set 8 (some ⟨Color.w, PType.P⟩)).set 60
        (some ⟨Color.w, PType.K⟩)).set 4 (some ⟨Color.b, PType.K⟩),
    turn := Color.w, moveHistory := [],
    castlingRights := ⟨false, false, false, false⟩, enPassantTarget := none,
    halfMoveClock := 0, fullMoveNumber := 1, positionMap := [],
    gameOver := false, gameResult := none }

/-- The candidate submitted in the C3 counterexample: promotion squares
given, no promotion piece chosen. -/
def C3cand : Candidate := { fromSq := 8, toSq := 0 }

/-- The state after 1. e4 e5 from the start (two committed moves),
used to exercise `undoMove`. -/
def C5state : Engine :=
  (makeMove (makeMove reset ⟨52, 36, none⟩).2 ⟨12, 28, none⟩).2

/-- Position for the SAN disambiguation claim: white rooks a1 (56) and
h1 (63) on an otherwise empty first rank, white Ke3 (44), black Ke8 (4).
Both rooks can reach d1 (59). -/
def C7pos : Engine :=
  { board := (((emptyBoard.set 56 (some ⟨Color.w, PType.R⟩)).set 63
        (some ⟨Color.w, PType.R⟩)).set 44 (some ⟨Color.w, PType.K⟩)).set 4
        (some ⟨Color.b, PType.K⟩),
    turn := Color.w, moveHistory := [],
    castlingRights := ⟨false, false, false, false⟩, enPassantTarget := none,
    halfMoveClock := 0, fullMoveNumber := 1, positionMap := [],
    gameOver := false, gameResult := none }

/-- A placeholder record (used only to name components of concrete
`makeMove` results in witnesses). -/
def dummyRecord : MoveRecord :=
  { move := { fromSq := 0, toSq := 0, type := MoveType.normal }, piece := none,
    captured := none, san := [], fen := [], castlingRights := ⟨false, false, false, false⟩,
    enPassantTarget := none, isCheck := false, isMate := false, isStalemate := false }

/-- Value of one board cell as summed by the `totalMat` loop of `evaluate()`. -/
def cellValue : Option Piece → Nat
  | some p => PIECE_VALUES p.ptype
  | none => 0

/-! ## Theorems -/

theorem totalMaterial_foldl (b : Board) :
    ∀ n : Nat, b.foldl (fun a c => a + cellValue c) n = n + (b.map cellValue).sum := by
  induction b with
  | nil => intro n; simp
  | cons c rest ih =>
    intro n
    simp [List.foldl_cons, ih, List.sum_cons]
    omega

theorem totalMaterial_eq_sum (b : Board) : totalMaterial b = (b.map cellValue).sum := by
  have h := totalMaterial_foldl b 0
  simpa [totalMaterial, cellValue] using h

theorem totalMaterial_ge (b : Board) (p : Piece) (hp : some p ∈ b) :
    PIECE_VALUES p.ptype ≤ totalMaterial b := by
  rw [totalMaterial_eq_sum]
  exact List.single_le_sum (fun x _ => Nat.zero_le x) _
    (List.mem_map_of_mem cellValue hp)

theorem cell_mem (b : Board) (i : Nat) (x : Option Piece) (hx : x.isSome)
    (h : cell b i = x) : x ∈ b := by
  unfold cell at h
  rw [List.getD_eq_getElem?_getD] at h
  cases hq : b[i]? with
  | none => rw [hq] at h; simp at h; rw [← h] at hx; simp at hx
  | some y =>
    rw [hq] at h
    simp at h
    subst h
    exact List.getElem?_mem hq

/-- C9: whenever the board contains at least one king, the endgame test of
`evaluate()` is false — the total material includes the king's value 20000,
far above the 1500 threshold — so `evaluate` runs its piece loop with the
endgame flag off and the standard (non-endgame) king table `PST_K` is used
for every king. -/
theorem C9_no_endgame_table (e : Engine)
    (h : ∃ i c, cell e.board i = some ⟨c, PType.K⟩) :
    isEndgameOf e.board = false ∧
      (e.gameResult = none → evaluate e = evaluateCore e false) ∧
      pstTable (isEndgameOf e.board) PType.K = PST_K := by
  obtain ⟨i, c, hc⟩ := h
  have hmem : (some (⟨c, PType.K⟩ : Piece)) ∈ e.board := cell_mem _ _ _ rfl hc
  have hge : 20000 ≤ totalMaterial e.board := totalMaterial_ge e.board ⟨c, PType.K⟩ hmem
  have hflag : isEndgameOf e.board = false := by
    unfold isEndgameOf
    simp only [decide_eq_false_iff_not]
    omega
  refine ⟨hflag, ?_, ?_⟩
  · intro hres
    unfold evaluate
    rw [hres, hflag]
  · rw [hflag]
    rfl

/-- Witness for C9 at the standard starting position (white king on e1). -/
theorem C9_no_endgame_table_witness :
    isEndgameOf reset.board = false ∧
      (reset.gameResult = none → evaluate reset = evaluateCore reset false) ∧
      pstTable (isEndgameOf reset.board) PType.K = PST_K :=
  C9_no_endgame_table reset ⟨60, Color.w, by decide⟩

theorem restore_save_applyMoveFull (e : Engine) (m : Move) :
    _restoreState (_saveState e) (applyMoveFull e m) = e := rfl

theorem abLoopMax_state (recur : Engine → Score → Score → (Score × Engine))
    (hrec : ∀ e1 a b, (recur e1 a b).2 = e1) :
    ∀ (moves : List Move) (e : Engine) (best alpha beta : Score),
      (abLoopMax recur moves e best alpha beta).2 = e := by
  intro moves
  induction moves with
  | nil => intro e best alpha beta; rfl
  | cons m rest ih =>
    intro e best alpha beta
    simp only [abLoopMax, hrec, restore_save_applyMoveFull]
    split
    · rfl
    · exact ih e _ _ _

theorem abLoopMin_state (recur : Engine → Score → Score → (Score × Engine))
    (hrec : ∀ e1 a b, (recur e1 a b).2 = e1) :
    ∀ (moves : List Move) (e : Engine) (best alpha beta : Score),
      (abLoopMin recur moves e best alpha beta).2 = e := by
  intro moves
  induction moves with
  | nil => intro e best alpha beta; rfl
  | cons m rest ih =>
    intro e best alpha beta
    simp only [abLoopMin, hrec, restore_save_applyMoveFull]
    split
    · rfl
    · exact ih e _ _ _

theorem minimax_state :
    ∀ (d : Nat) (e : Engine) (alpha beta : Score) (isMax : Bool),
      (_minimax d e alpha beta isMax).2 = e := by
  intro d
  induction d with
  | zero => intro e a b mx; rfl
  | succ d ih =>
    intro e a b mx
    simp only [_minimax]
    split
    · rfl
    · split
      · rfl
      · split
        · exact abLoopMax_state _ (fun e1 a1 b1 => ih e1 a1 b1 false) _ e _ _ _
        · exact abLoopMin_state _ (fun e1 a1 b1 => ih e1 a1 b1 true) _ e _ _ _

theorem getBestMoveGo_state (recur : Engine → (Score × Engine))
    (hrec : ∀ e1, (recur e1).2 = e1) (isMax : Bool) :
    ∀ (moves : List Move) (e : Engine) (bm : Option Move) (bs : Score),
      (getBestMoveGo recur isMax moves e bm bs).2 = e := by
  intro moves
  induction moves with
  | nil => intro e bm bs; rfl
  | cons m rest ih =>
    intro e bm bs
    simp only [getBestMoveGo, hrec, restore_save_applyMoveFull]
    split <;> split <;> exact ih e _ _

/-- C10: `ChessAI.getBestMove` leaves the engine's observable state
unchanged — board, turn, castling rights, en-passant target, both clocks,
`gameOver` and `gameResult` all equal their pre-call values, for every
search depth and every shuffle outcome, even though the search applies and
restores moves destructively in between. -/
theorem C10_getBestMove_preserves_state (maxDepth : Nat)
    (shuffle : List Move → List Move) (e : Engine) :
    ((getBestMove maxDepth shuffle e).2.board = e.board) ∧
      ((getBestMove maxDepth shuffle e).2.turn = e.turn) ∧
      ((getBestMove maxDepth shuffle e).2.castlingRights = e.castlingRights) ∧
      ((getBestMove maxDepth shuffle e).2.enPassantTarget = e.enPassantTarget) ∧
      ((getBestMove maxDepth shuffle e).2.halfMoveClock = e.halfMoveClock) ∧
      ((getBestMove maxDepth shuffle e).2.fullMoveNumber = e.fullMoveNumber) ∧
      ((getBestMove maxDepth shuffle e).2.gameOver = e.gameOver) ∧
      ((getBestMove maxDepth shuffle e).2.gameResult = e.gameResult) := by
  have hstate : (getBestMove maxDepth shuffle e).2 = e := by
    simp only [getBestMove]
    split
    · rfl
    · split
      · rfl
      · exact getBestMoveGo_state _ (fun e1 => minimax_state (maxDepth - 1) e1 ⊥ ⊤ _) _ _ e _ _
  rw [hstate]
  exact ⟨rfl, rfl, rfl, rfl, rfl, rfl, rfl, rfl⟩

/-- C2: evaluation of the code at the failing input. In `C2pos` the legal
move set (`getAllLegalMoves`) contains the castling move `C2move`
(king e1 → c1, a leftover of the uncorrected king-branch castling
generator) although the intermediate square d1 = 59 that the king transits
is attacked by the opponent; white is not currently in check, so it is the
transit-square precondition claimed for every legal castling move that is
violated. -/
theorem C2_castle_transit_attacked :
    C2move ∈ getAllLegalMoves C2pos ∧
      C2move.type = MoveType.castleKing ∧
      C2move.fromSq = 60 ∧ C2move.toSq = 58 ∧
      isAttacked C2pos.board 59 Color.b = true ∧
      isInCheck C2pos.board Color.w = false := by
  decide!

/-- C7: evaluation of the code at the failing input. In `C7pos` the white
rook a1 moves to d1 while the rook h1 could also reach d1 (exactly one
other same-kind candidate on the pre-move board), yet the SAN produced by
`makeMove` is plain `Rd1` with no disambiguator: `_getAmbiguous` runs on
the post-move board, where the destination is occupied by the mover, so
its candidate set is always empty. -/
theorem C7_san_no_disambiguator :
    (makeMove C7pos ⟨56, 59, none⟩).1.map MoveRecord.san = some (("Rd1").data) ∧
      ((_getAllPseudoMoves C7pos.board Color.w C7pos.castlingRights
          C7pos.enPassantTarget).filter
        (fun m => (m.toSq == 59) && !(m.fromSq == 56)
          && (cell C7pos.board m.fromSq == some ⟨Color.w, PType.R⟩))).length = 1 := by
  decide!

/-- C5: evaluation of the code at the failing input. After 1. e4 e5 the
history holds two records and the position immediately before the undone
move (e5) has black to move; `undoMove` returns the e5 record but leaves
the move list empty instead of one record shorter, and sets the turn to
white instead of black (its `loadFEN` call wipes `moveHistory` and
`positionMap`, and the explicit turn override uses the wrong side). -/
theorem C5_undo_divergence :
    C5state.moveHistory.length = 2 ∧
      (makeMove reset ⟨52, 36, none⟩).2.turn = Color.b ∧
      (undoMove C5state).1.isSome = true ∧
      (undoMove C5state).2.moveHistory.length = 0 ∧
      (undoMove C5state).2.turn = Color.w := by
  decide!

/-- C3: counterexample to the claim as stated. In `C3pos` every legal move
on the square pair a7 → a8 is a pawn promotion, and the candidate `C3cand`
carries no promotion piece, so no legal move is matched with a matching
promotion choice in the claim's sense — yet `makeMove` commits and
returns a record (the first match, a queen promotion). -/
theorem C3_counterexample :
    (makeMove C3pos C3cand).1.isSome = true ∧
      ∀ m ∈ getLegalMoves C3pos C3cand.fromSq,
        ¬(m.fromSq = C3cand.fromSq ∧ m.toSq = C3cand.toSq ∧
          (m.promoteTo.isSome → C3cand.promoteTo = m.promoteTo)) := by
  decide!

/-- C3 (amended): `makeMove` commits and returns a record if and only if
the game is not over and some currently legal move agrees with the
candidate's from and to squares and — when the candidate supplies a
promotion piece — carries that same promotion piece (a candidate without
one matches any move on the square pair, and the first matching legal
move, the queen promotion, is committed); in every other case it returns
the `false` sentinel (`none`) with the state unchanged, never throwing. -/
theorem C3_makeMove_iff (e : Engine) (cand : Candidate) :
    ((makeMove e cand).1.isSome = true ↔
      (e.gameOver = false ∧ ∃ m ∈ getLegalMoves e cand.fromSq, candMatches cand m = true)) ∧
      ((makeMove e cand).1 = none → (makeMove e cand).2 = e) := by
  by_cases hg : e.gameOver
  · constructor
    · simp [makeMove, hg]
    · intro _
      simp [makeMove, hg]
  · cases hf : (getLegalMoves e cand.fromSq).find? (fun m => candMatches cand m) with
    | none =>
      have hnone : ∀ m ∈ getLegalMoves e cand.fromSq, ¬(candMatches cand m = true) := by
        intro m hm
        exact List.find?_eq_none.mp hf m hm
      constructor
      · simp only [makeMove, hg, hf]
        simp only [Bool.false_eq_true, if_false, Option.isSome_none]
        constructor
        · intro h; exact absurd h (by simp)
        · rintro ⟨-, m, hm, hp⟩
          exact absurd hp (hnone m hm)
      · intro _
        simp [makeMove, hg, hf]
    | some found =>
      constructor
      · simp only [makeMove, hg, hf]
        simp only [Bool.false_eq_true, if_false, Option.isSome_some, true_iff]
        refine ⟨by simp [hg], found, List.mem_of_find?_eq_some hf, List.find?_some hf⟩
      · intro hnone
        simp only [makeMove, hg, hf] at hnone
        simp at hnone

theorem checkGameEnd_halfMoveClock (e : Engine) (r : MoveRecord) :
    (_checkGameEnd e r).halfMoveClock = e.halfMoveClock := by
  unfold _checkGameEnd
  split
  · rfl
  · split
    · rfl
    · split
      · rfl
      · split
        · rfl
        · split <;> rfl

theorem checkGameEnd_positionMap (e : Engine) (r : MoveRecord) :
    (_checkGameEnd e r).positionMap = e.positionMap := by
  unfold _checkGameEnd
  split
  · rfl
  · split
    · rfl
    · split
      · rfl
      · split
        · rfl
        · split <;> rfl

theorem checkGameEnd_threefold_iff (e4 : Engine) (r : MoveRecord)
    (hnm : r.isMate = false) (hns : r.isStalemate = false)
    (hclock : e4.halfMoveClock < 100) (hover : e4.gameOver = false) :
    (((_checkGameEnd e4 r).gameOver = true ∧
        (_checkGameEnd e4 r).gameResult = some ⟨none, ("threefold repetition").data⟩) ↔
      ∃ kv ∈ e4.positionMap, 3 ≤ kv.2) := by
  simp only [_checkGameEnd, hnm, hns, Bool.false_eq_true, if_false]
  rw [if_neg (by omega : ¬ 100 ≤ e4.halfMoveClock)]
  by_cases h3 : _isThreefoldRepetition e4 = true
  · rw [if_pos h3]
    unfold _isThreefoldRepetition at h3
    rw [List.any_eq_true] at h3
    simp only [_setGameOver]
    constructor
    · intro _
      obtain ⟨kv, hkv, hge⟩ := h3
      exact ⟨kv, hkv, by simpa using hge⟩
    · intro _
      exact ⟨by simp, by simp⟩
  · rw [if_neg h3]
    have hno : ¬ ∃ kv ∈ e4.positionMap, 3 ≤ kv.2 := by
      intro ⟨kv, hkv, hge⟩
      exact h3 (by
        unfold _isThreefoldRepetition
        rw [List.any_eq_true]
        exact ⟨kv, hkv, by simpa using hge⟩)
    constructor
    · intro ⟨hov, hres⟩
      exfalso
      by_cases hins : _isInsufficientMaterial e4 = true
      · rw [if_pos hins] at hres
        simp only [_setGameOver] at hres
        exact absurd hres (by decide)
      · rw [if_neg hins] at hov
        rw [hover] at hov
        exact Bool.false_ne_true hov
    · intro hex
      exact absurd hex hno

/-- C4: after a committed move that is neither checkmate nor stalemate and
with the (updated) half-move clock below 100, the resulting state is a
declared draw with reason `threefold repetition` if and only if some
reduced position key — board, turn, castling rights and en-passant target,
clocks excluded — has been recorded at least three times; since each
committed move records exactly one occurrence, the detection fires exactly
when a third occurrence is recorded and not on the second. -/
theorem C4_threefold_iff (e : Engine) (cand : Candidate) (rec : MoveRecord)
    (e2 : Engine) (hcommit : makeMove e cand = (some rec, e2))
    (hnm : rec.isMate = false) (hns : rec.isStalemate = false)
    (hclock : e2.halfMoveClock < 100) :
    ((e2.gameOver = true ∧
        e2.gameResult = some ⟨none, ("threefold repetition").data⟩) ↔
      ∃ kv ∈ e2.positionMap, 3 ≤ kv.2) := by
  by_cases hg : e.gameOver
  · simp [makeMove, hg] at hcommit
  · cases hf : (getLegalMoves e cand.fromSq).find? (fun m => candMatches cand m) with
    | none => simp [makeMove, hg, hf] at hcommit
    | some found =>
      simp only [makeMove, hg, hf, Bool.false_eq_true, if_false] at hcommit
      rw [Prod.mk.injEq, Option.some.injEq] at hcommit
      obtain ⟨hrec, he2⟩ := hcommit
      subst hrec
      rw [← he2] at hclock ⊢
      rw [checkGameEnd_halfMoveClock] at hclock
      rw [checkGameEnd_positionMap]
      refine checkGameEnd_threefold_iff _ _ hnm hns hclock ?_
      rw [show ∀ x : Engine, (_recordPosition x).gameOver = x.gameOver from fun x => rfl]

/-- Witness for C4 at a concrete committed move (a7-a8 queen promotion in
`C3pos`; not mate, not stalemate, clock 0, no repeated key). -/
theorem C4_threefold_iff_witness :
    (((makeMove C3pos C3cand).2.gameOver = true ∧
        (makeMove C3pos C3cand).2.gameResult =
          some ⟨none, ("threefold repetition").data⟩) ↔
      ∃ kv ∈ (makeMove C3pos C3cand).2.positionMap, 3 ≤ kv.2) :=
  C4_threefold_iff C3pos C3cand ((makeMove C3pos C3cand).1.getD dummyRecord)
    (makeMove C3pos C3cand).2 (by decide) (by decide) (by decide) (by decide)

/-! C6 support: characters, numerals, rank round-trip. -/

theorem digitChar_toNat : ∀ k, k < 10 → (digitChar k).toNat = 48 + k := by decide

theorem digitChar_isDigit : ∀ k, k < 10 → (digitChar k).isDigit = true := by decide

theorem digitChar_ne : ∀ k, k < 10 → digitChar k ≠ ' ' ∧ digitChar k ≠ '/' := by decide

theorem pieceChar_not_digit : ∀ p : Piece, (pieceChar p).isDigit = false := by decide

theorem charPiece_pieceChar : ∀ p : Piece, charPiece (pieceChar p) = some p := by decide

theorem pieceChar_ne : ∀ p : Piece, pieceChar p ≠ ' ' ∧ pieceChar p ≠ '/' := by decide

theorem parseNat_append_digit (l : List Char) (c : Char) :
    parseNat (l ++ [c]) = parseNat l * 10 + (c.toNat - 48) := by
  simp [parseNat, List.foldl_append]

theorem natCharsAux_spec :
    ∀ fuel n, n < fuel →
      parseNat (natCharsAux fuel n) = n ∧ natCharsAux fuel n ≠ [] ∧
        ∀ c ∈ natCharsAux fuel n, c.isDigit = true := by
  intro fuel
  induction fuel with
  | zero => intro n h; omega
  | succ fuel ih =>
    intro n h
    by_cases h10 : n < 10
    · simp only [natCharsAux, if_pos h10]
      refine ⟨?_, by simp, ?_⟩
      · simp [parseNat, digitChar_toNat n h10]
      · intro c hc
        simp at hc
        subst hc
        exact digitChar_isDigit n h10
    · have hdiv : n / 10 < fuel := by
        have : n / 10 < n := Nat.div_lt_self (by omega) (by omega)
        omega
      obtain ⟨hp, hne, hd⟩ := ih (n / 10) hdiv
      simp only [natCharsAux, if_neg h10]
      refine ⟨?_, by simp, ?_⟩
      · rw [parseNat_append_digit, hp, digitChar_toNat (n % 10) (by omega)]
        omega
      · intro c hc
        rw [List.mem_append] at hc
        rcases hc with hc | hc
        · exact hd c hc
        · simp at hc
          subst hc
          exact digitChar_isDigit (n % 10) (by omega)

theorem parseNat_natChars (n : Nat) : parseNat (natChars n) = n :=
  (natCharsAux_spec (n + 1) n (by omega)).1

theorem natChars_ne_nil (n : Nat) : natChars n ≠ [] :=
  (natCharsAux_spec (n + 1) n (by omega)).2.1

theorem natChars_no_space (n : Nat) : ∀ c ∈ natChars n, c ≠ ' ' := by
  intro c hc
  have := (natCharsAux_spec (n + 1) n (by omega)).2.2 c hc
  intro he
  subst he
  simp at this

theorem rankFEN_chars :
    ∀ (cells : List (Option Piece)) (n : Nat), n + cells.length ≤ 8 →
      ∀ c ∈ rankFEN cells n, c ≠ ' ' ∧ c ≠ '/' := by
  intro cells
  induction cells with
  | nil =>
    intro n hn c hc
    match n, hc with
    | n + 1, hc =>
      simp only [rankFEN, List.mem_singleton] at hc
      subst hc
      exact digitChar_ne (n + 1) (by omega)
  | cons cl rest ih =>
    intro n hn c hc
    match cl with
    | none =>
      exact ih (n + 1) (by simp at hn ⊢; omega) c hc
    | some p =>
      match n, hc with
      | 0, hc =>
        simp only [rankFEN, List.mem_cons] at hc
        rcases hc with hc | hc
        · subst hc; exact pieceChar_ne p
        · exact ih 0 (by simp at hn ⊢; omega) c hc
      | n + 1, hc =>
        simp only [rankFEN, List.mem_cons] at hc
        rcases hc with hc | hc
        · subst hc; exact digitChar_ne (n + 1) (by simp at hn; omega)
        · rcases hc with hc | hc
          · subst hc; exact pieceChar_ne p
          · exact ih 0 (by simp at hn ⊢; omega) c hc

theorem rankFEN_ne_nil :
    ∀ (cells : List (Option Piece)) (n : Nat), 0 < n + cells.length →
      rankFEN cells n ≠ [] := by
  intro cells
  induction cells with
  | nil =>
    intro n hn
    match n with
    | n + 1 => simp [rankFEN]
  | cons cl rest ih =>
    intro n hn
    match cl, n with
    | none, n => exact ih (n + 1) (by omega)
    | some p, 0 => simp [rankFEN]
    | some p, n + 1 => simp [rankFEN]

theorem loadRow_rankFEN :
    ∀ (cells : List (Option Piece)) (n : Nat) (b : Board) (r f : Nat),
      n + cells.length ≤ 8 →
      loadRow b r (rankFEN cells n) f = writeSomes b (r * 8 + f + n) cells := by
  intro cells
  induction cells with
  | nil =>
    intro n b r f hn
    match n with
    | 0 => rfl
    | n + 1 =>
      simp only [rankFEN, loadRow, digitChar_isDigit (n + 1) (by omega), if_true,
        digitChar_toNat (n + 1) (by omega)]
      simp [writeSomes, loadRow]
  | cons cl rest ih =>
    intro n b r f hn
    match cl, n with
    | none, n =>
      simp only [rankFEN, writeSomes]
      rw [ih (n + 1) b r f (by simp at hn ⊢; omega)]
      ring_nf
    | some p, 0 =>
      simp only [rankFEN, loadRow, pieceChar_not_digit p, Bool.false_eq_true, if_false,
        charPiece_pieceChar p, writeSomes]
      rw [ih 0 (b.set (r * 8 + f) (some p)) r (f + 1) (by simp at hn ⊢; omega)]
      ring_nf
    | some p, n + 1 =>
      simp only [rankFEN, loadRow, digitChar_isDigit (n + 1) (by simp at hn; omega), if_true,
        digitChar_toNat (n + 1) (by simp at hn; omega), pieceChar_not_digit p,
        Bool.false_eq_true, if_false, charPiece_pieceChar p, writeSomes]
      have hnum : 48 + (n + 1) - 48 = n + 1 := by omega
      rw [hnum]
      rw [ih 0 (b.set (r * 8 + (f + (n + 1))) (some p)) r (f + (n + 1) + 1)
        (by simp at hn ⊢; omega)]
      have h1 : r * 8 + (f + (n + 1)) = r * 8 + f + (n + 1) := by ring
      rw [h1]
      ring_nf

theorem writeSomes_length :
    ∀ (cells : List (Option Piece)) (b : Board) (pos : Nat),
      (writeSomes b pos cells).length = b.length := by
  intro cells
  induction cells with
  | nil => intro b pos; rfl
  | cons cl rest ih =>
    intro b pos
    match cl with
    | none => exact ih b (pos + 1)
    | some p => rw [writeSomes, ih, List.length_set]

theorem writeSomes_getElem?_lt :
    ∀ (cells : List (Option Piece)) (b : Board) (pos j : Nat), j < pos →
      (writeSomes b pos cells)[j]? = b[j]? := by
  intro cells
  induction cells with
  | nil => intro b pos j hj; rfl
  | cons cl rest ih =>
    intro b pos j hj
    match cl with
    | none => exact ih b (pos + 1) j (by omega)
    | some p =>
      rw [writeSomes, ih _ (pos + 1) j (by omega),
        List.getElem?_set_ne (by omega : pos ≠ j)]

theorem writeSomes_getElem?_ge :
    ∀ (cells : List (Option Piece)) (b : Board) (pos j : Nat),
      pos + cells.length ≤ j →
      (writeSomes b pos cells)[j]? = b[j]? := by
  intro cells
  induction cells with
  | nil => intro b pos j hj; rfl
  | cons cl rest ih =>
    intro b pos j hj
    simp only [List.length_cons] at hj
    match cl with
    | none => exact ih b (pos + 1) j (by omega)
    | some p =>
      rw [writeSomes, ih _ (pos + 1) j (by omega),
        List.getElem?_set_ne (by omega : pos ≠ j)]

theorem writeSomes_getElem?_mid :
    ∀ (cells : List (Option Piece)) (b : Board) (pos k : Nat) (hk : k < cells.length),
      pos + cells.length ≤ b.length →
      (writeSomes b pos cells)[pos + k]? =
        (match cells.get ⟨k, hk⟩ with
         | some p => some (some p)
         | none => b[pos + k]?) := by
  intro cells
  induction cells with
  | nil => intro b pos k hk; exact absurd hk (by simp)
  | cons cl rest ih =>
    intro b pos k hk hlen
    simp only [List.length_cons] at hlen
    match k with
    | 0 =>
      match cl with
      | none =>
        simp only [writeSomes, List.get]
        rw [writeSomes_getElem?_lt rest b (pos + 1) (pos + 0) (by omega)]
      | some p =>
        simp only [writeSomes, List.get]
        rw [writeSomes_getElem?_lt rest _ (pos + 1) (pos + 0) (by omega)]
        simp only [Nat.add_zero]
        rw [List.getElem?_set_self (by omega)]
    | k + 1 =>
      simp only [List.length_cons] at hk
      have hk2 : k < rest.length := by omega
      match cl with
      | none =>
        simp only [writeSomes, List.get]
        have := ih b (pos + 1) k hk2 (by omega)
        rw [show pos + (k + 1) = pos + 1 + k by omega, this]
      | some p =>
        simp only [writeSomes, List.get]
        have := ih (b.set pos (some p)) (pos + 1) k hk2 (by rw [List.length_set]; omega)
        rw [show pos + (k + 1) = pos + 1 + k by omega, this]
        match rest.get ⟨k, hk2⟩ with
        | some q => rfl
        | none => exact List.getElem?_set_ne (by omega : pos ≠ pos + 1 + k)

theorem rowCells_length (B : Board) (r : Nat) : (rowCells B r).length = 8 := by
  simp [rowCells]

theorem rowCells_get (B : Board) (r k : Nat) (hk : k < (rowCells B r).length) :
    (rowCells B r).get ⟨k, hk⟩ = cell B (r * 8 + k) := by
  simp [rowCells]

theorem cell_getElem? (b : Board) (j : Nat) (hj : j < b.length) :
    b[j]? = some (cell b j) := by
  rw [List.getElem?_eq_getElem hj]
  unfold cell
  rw [List.getD_eq_getElem?_getD, List.getElem?_eq_getElem hj]
  rfl

theorem loadRows_inv (B : Board) (hB : B.length = 64) :
    ∀ (k r : Nat) (acc : Board), r + k = 8 → acc.length = 64 →
      (∀ j, acc[j]? = if j < 8 * r then B[j]? else (List.replicate 64 (none : Option Piece))[j]?) →
      ∀ j, (loadRows acc r ((List.range' r k).map (fun r2 => rankFEN (rowCells B r2) 0)))[j]?
        = if j < 8 * (r + k) then B[j]? else (List.replicate 64 (none : Option Piece))[j]? := by
  intro k
  induction k with
  | zero =>
    intro r acc hr hlen hacc j
    simpa [loadRows] using hacc j
  | succ k ih =>
    intro r acc hr hlen hacc j
    rw [show r + (k + 1) = r + 1 + k from by omega]
    rw [List.range'_succ, List.map_cons]
    show (loadRows (loadRow acc r (rankFEN (rowCells B r) 0) 0) (r + 1) _)[j]? = _
    have hload : loadRow acc r (rankFEN (rowCells B r) 0) 0 = writeSomes acc (r * 8) (rowCells B r) := by
      rw [loadRow_rankFEN (rowCells B r) 0 acc r 0 (by rw [rowCells_length])]
      simp
    rw [hload]
    have hlen2 : (writeSomes acc (r * 8) (rowCells B r)).length = 64 := by
      rw [writeSomes_length, hlen]
    have hacc2 : ∀ j2, (writeSomes acc (r * 8) (rowCells B r))[j2]?
        = if j2 < 8 * (r + 1) then B[j2]? else (List.replicate 64 (none : Option Piece))[j2]? := by
      intro j2
      by_cases h1 : j2 < r * 8
      · rw [writeSomes_getElem?_lt _ _ _ _ h1, hacc j2]
        rw [if_pos (by omega), if_pos (by omega)]
      · by_cases h2 : j2 < r * 8 + 8
        · have hk0 : j2 - r * 8 < (rowCells B r).length := by rw [rowCells_length]; omega
          have hmid := writeSomes_getElem?_mid (rowCells B r) acc (r * 8) (j2 - r * 8) hk0
            (by rw [rowCells_length, hlen]; omega)
          rw [show r * 8 + (j2 - r * 8) = j2 by omega] at hmid
          rw [hmid, rowCells_get B r (j2 - r * 8) hk0,
            show r * 8 + (j2 - r * 8) = j2 by omega]
          have hj64 : j2 < 64 := by omega
          have hBj : B[j2]? = some (cell B j2) := cell_getElem? B j2 (by omega)
          match hc : cell B j2 with
          | some p => rw [if_pos (by omega), hBj, hc]
          | none =>
            rw [if_pos (by omega), hBj, hc, hacc j2]
            by_cases h3 : j2 < 8 * r
            · rw [if_pos h3, hBj, hc]
            · rw [if_neg h3, List.getElem?_replicate, if_pos hj64]
        · rw [writeSomes_getElem?_ge _ _ _ _ (by rw [rowCells_length]; omega), hacc j2]
          rw [if_neg (by omega), if_neg (by omega)]
    exact ih (r + 1) _ (by omega) hlen2 hacc2 j

theorem loadRows_roundtrip (B : Board) (hB : B.length = 64) :
    loadRows (List.replicate 64 none) 0
      ((List.range 8).map (fun r => rankFEN (rowCells B r) 0)) = B := by
  rw [List.range_eq_range']
  apply List.ext_getElem?
  intro j
  have h := loadRows_inv B hB 8 0 (List.replicate 64 none) (by omega) (by simp)
    (fun j2 => by rw [if_neg (by omega)]) j
  rw [h]
  by_cases hj : j < 64
  · rw [if_pos (by omega)]
  · rw [if_neg (by omega), List.getElem?_replicate, if_neg hj,
      List.getElem?_eq_none (by omega)]

/-! C6 support: the six space-separated fields of the FEN string. -/

theorem isValid_iff (r f : Int) :
    isValid r f = true ↔ 0 ≤ r ∧ r < 8 ∧ 0 ≤ f ∧ f < 8 := by
  simp [isValid, and_assoc]

theorem sqIdx_lt (r f : Int) (h : isValid r f = true) : sqIdx r f < 64 := by
  rw [isValid_iff] at h
  unfold sqIdx
  omega

theorem mem_intercalate (s : List Char) (c : Char) :
    ∀ ls : List (List Char), c ∈ List.intercalate s ls → c ∈ s ∨ ∃ l ∈ ls, c ∈ l := by
  intro ls
  induction ls with
  | nil => intro h; simp [List.intercalate] at h
  | cons a t ih =>
    cases t with
    | nil =>
      intro h
      simp [List.intercalate] at h
      exact Or.inr ⟨a, by simp, h⟩
    | cons b t2 =>
      intro h
      rw [show List.intercalate s (a :: b :: t2) = a ++ s ++ List.intercalate s (b :: t2) from by
        simp [List.intercalate]] at h
      rcases List.mem_append.1 h with h1 | h2
      · rcases List.mem_append.1 h1 with ha | hs
        · exact Or.inr ⟨a, by simp, ha⟩
        · exact Or.inl hs
      · rcases ih h2 with hs | ⟨l, hl, hcl⟩
        · exact Or.inl hs
        · exact Or.inr ⟨l, by simp [hl], hcl⟩

theorem boardFEN_no_space (b : Board) : ∀ c ∈ boardFEN b, c ≠ ' ' := by
  intro c hc
  rcases mem_intercalate ['/'] c _ hc with hs | ⟨l, hl, hcl⟩
  · simp at hs; subst hs; decide
  · simp only [List.mem_map, List.mem_range] at hl
    obtain ⟨r, hr, rfl⟩ := hl
    exact (rankFEN_chars (rowCells b r) 0 (by simp [rowCells_length]) c hcl).1

theorem boardFEN_ne_nil (b : Board) : boardFEN b ≠ [] := by
  have h0 : rankFEN (rowCells b 0) 0 ≠ [] := rankFEN_ne_nil _ 0 (by simp [rowCells_length])
  unfold boardFEN
  intro h
  rw [show List.range 8 = [0, 1, 2, 3, 4, 5, 6, 7] from by decide] at h
  simp [List.intercalate, List.append_eq_nil, h0] at h

theorem castlingFEN_props (cr : CastlingRights) :
    castlingFEN cr ≠ [] ∧ (∀ c ∈ castlingFEN cr, c ≠ ' ' ∧ c ≠ '/') ∧
      (castlingFEN cr).elem 'K' = cr.wK ∧ (castlingFEN cr).elem 'Q' = cr.wQ ∧
      (castlingFEN cr).elem 'k' = cr.bK ∧ (castlingFEN cr).elem 'q' = cr.bQ := by
  obtain ⟨a, b, c, d⟩ := cr
  cases a <;> cases b <;> cases c <;> cases d <;> exact (by decide)

theorem sqToAlg_chars (t : Nat) : ∀ c ∈ _sqToAlg t, c ≠ ' ' ∧ c ≠ '/' := by
  have h1 : t % 8 < 8 := Nat.mod_lt _ (by omega)
  have h2 : 8 - t / 8 ≤ 8 := Nat.sub_le _ _
  have ha : ∀ k, k < 8 → (Char.ofNat (97 + k) ≠ ' ' ∧ Char.ofNat (97 + k) ≠ '/') := by decide
  have hb : ∀ m, m ≤ 8 → (digitChar m ≠ ' ' ∧ digitChar m ≠ '/') := by decide
  intro c hc
  unfold _sqToAlg colOf rowOf at hc
  rcases List.mem_cons.1 hc with rfl | hc2
  · exact ha _ h1
  · rcases List.mem_cons.1 hc2 with rfl | hc3
    · exact hb _ h2
    · simp at hc3

theorem sqToAlg_ne_dash (t : Nat) : _sqToAlg t ≠ ['-'] := by
  intro h
  exact absurd (congrArg List.length h) (by simp [_sqToAlg])

theorem sqToAlg_ne_nil (t : Nat) : _sqToAlg t ≠ [] := by
  intro h
  exact absurd (congrArg List.length h) (by simp [_sqToAlg])

theorem algToSq_sqToAlg (t : Nat) (ht : t < 72) : algToSq (_sqToAlg t) = t := by
  have h1 : t % 8 < 8 := Nat.mod_lt _ (by omega)
  have hca : ∀ k, k < 8 → (Char.ofNat (97 + k)).toNat = 97 + k := by decide
  have hcd : ∀ m, m ≤ 8 → (digitChar m).toNat = 48 + m := by decide
  unfold algToSq _sqToAlg colOf rowOf
  simp only [List.getD_cons_zero, List.getD_cons_succ]
  rw [hca (t % 8) h1, hcd (8 - t / 8) (by omega)]
  omega

theorem toFEN_eq_intercalate (e : Engine) :
    toFEN e = List.intercalate [' ']
      [boardFEN e.board,
       (match e.turn with | Color.w => ['w'] | Color.b => ['b']),
       castlingFEN e.castlingRights,
       (match e.enPassantTarget with | some t => _sqToAlg t | none => ['-']),
       natChars e.halfMoveClock,
       natChars e.fullMoveNumber] := by
  simp [toFEN, List.intercalate]

theorem splitFields_toFEN (e : Engine) :
    splitFields (toFEN e) =
      [boardFEN e.board,
       (match e.turn with | Color.w => ['w'] | Color.b => ['b']),
       castlingFEN e.castlingRights,
       (match e.enPassantTarget with | some t => _sqToAlg t | none => ['-']),
       natChars e.halfMoveClock,
       natChars e.fullMoveNumber] := by
  have hx : ∀ l ∈ [boardFEN e.board,
       (match e.turn with | Color.w => ['w'] | Color.b => ['b']),
       castlingFEN e.castlingRights,
       (match e.enPassantTarget with | some t => _sqToAlg t | none => ['-']),
       natChars e.halfMoveClock,
       natChars e.fullMoveNumber], ' ' ∉ l := by
    intro l hl
    simp only [List.mem_cons, List.not_mem_nil, or_false] at hl
    rcases hl with rfl | rfl | rfl | rfl | rfl | rfl
    · exact fun h => boardFEN_no_space e.board ' ' h rfl
    · cases e.turn <;> decide
    · exact fun h => ((castlingFEN_props e.castlingRights).2.1 ' ' h).1 rfl
    · cases e.enPassantTarget with
      | none => decide
      | some t => exact fun h => (sqToAlg_chars t ' ' h).1 rfl
    · exact fun h => natChars_no_space e.halfMoveClock ' ' h rfl
    · exact fun h => natChars_no_space e.fullMoveNumber ' ' h rfl
  unfold splitFields
  rw [toFEN_eq_intercalate e, List.splitOn_intercalate _ ' ' hx (by simp)]
  rw [List.filter_eq_self.mpr]
  intro a ha
  simp only [List.mem_cons, List.not_mem_nil, or_false] at ha
  rcases ha with rfl | rfl | rfl | rfl | rfl | rfl
  · simpa using boardFEN_ne_nil e.board
  · cases e.turn <;> decide
  · simpa using (castlingFEN_props e.castlingRights).1
  · cases e.enPassantTarget with
    | none => decide
    | some t => simpa using sqToAlg_ne_nil t
  · simpa using natChars_ne_nil e.halfMoveClock
  · simpa using natChars_ne_nil e.fullMoveNumber

theorem boardFEN_splitOn (b : Board) :
    (boardFEN b).splitOn '/' = (List.range 8).map (fun r => rankFEN (rowCells b r) 0) := by
  unfold boardFEN
  refine List.splitOn_intercalate _ '/' ?_ (by simp)
  intro l hl
  simp only [List.mem_map, List.mem_range] at hl
  obtain ⟨r, hr, rfl⟩ := hl
  exact fun h => (rankFEN_chars (rowCells b r) 0 (by simp [rowCells_length]) _ h).2 rfl

theorem splitFields_toFEN2 (e : Engine) :
    splitFields (toFEN e) =
      [boardFEN e.board,
       (if e.turn = Color.b then ['b'] else ['w']),
       castlingFEN e.castlingRights,
       (e.enPassantTarget.elim ['-'] _sqToAlg),
       natChars e.halfMoveClock,
       natChars e.fullMoveNumber] := by
  rw [splitFields_toFEN e]
  cases e.turn <;> cases e.enPassantTarget <;> rfl

theorem loadFEN_toFEN (e : Engine) (hw : WFE e) :
    loadFEN (toFEN e) = some (_recordPosition
      { board := e.board, turn := e.turn, moveHistory := [],
        castlingRights := e.castlingRights, enPassantTarget := e.enPassantTarget,
        halfMoveClock := e.halfMoveClock, fullMoveNumber := e.fullMoveNumber,
        positionMap := [], gameOver := false, gameResult := none }) := by
  obtain ⟨hlen, hep⟩ := hw
  simp only [loadFEN]
  rw [splitFields_toFEN2 e]
  rw [show ∀ (x1 x2 x3 x4 x5 x6 : List Char),
        [x1, x2, x3, x4, x5, x6].getD 0 [] = x1 from fun _ _ _ _ _ _ => rfl,
      show ∀ (x1 x2 x3 x4 x5 x6 : List Char),
        [x1, x2, x3, x4, x5, x6].getD 1 [] = x2 from fun _ _ _ _ _ _ => rfl,
      show ∀ (x1 x2 x3 x4 x5 x6 : List Char),
        [x1, x2, x3, x4, x5, x6].getD 2 [] = x3 from fun _ _ _ _ _ _ => rfl,
      show ∀ (x1 x2 x3 x4 x5 x6 : List Char),
        [x1, x2, x3, x4, x5, x6].getD 3 [] = x4 from fun _ _ _ _ _ _ => rfl,
      show ∀ (x1 x2 x3 x4 x5 x6 d : List Char),
        [x1, x2, x3, x4, x5, x6].getD 4 d = x5 from fun _ _ _ _ _ _ _ => rfl,
      show ∀ (x1 x2 x3 x4 x5 x6 d : List Char),
        [x1, x2, x3, x4, x5, x6].getD 5 d = x6 from fun _ _ _ _ _ _ _ => rfl]
  rw [if_neg (by simp)]
  rw [boardFEN_splitOn e.board]
  rw [if_neg (by simp)]
  rw [loadRows_roundtrip e.board hlen]
  rw [(castlingFEN_props e.castlingRights).2.2.1,
      (castlingFEN_props e.castlingRights).2.2.2.1,
      (castlingFEN_props e.castlingRights).2.2.2.2.1,
      (castlingFEN_props e.castlingRights).2.2.2.2.2]
  rw [parseNat_natChars, parseNat_natChars]
  cases hee : e.enPassantTarget with
  | none =>
    simp only [Option.elim_none]
    rw [if_pos trivial]
    by_cases htb : e.turn = Color.b
    · rw [if_pos htb, if_pos rfl, htb]
    · have htw : e.turn = Color.w := by revert htb; cases e.turn <;> simp
      rw [if_neg htb, if_neg (by decide), htw]
  | some t =>
    simp only [Option.elim_some]
    rw [if_neg (sqToAlg_ne_dash t)]
    rw [algToSq_sqToAlg t (hep t hee)]
    by_cases htb : e.turn = Color.b
    · rw [if_pos htb, if_pos rfl, htb]
    · have htw : e.turn = Color.w := by revert htb; cases e.turn <;> simp
      rw [if_neg htb, if_neg (by decide), htw]

/-! C6 support: every generated move targets an on-board square, so committed
play preserves structural well-formedness. -/

theorem slideGo_toSq (board : Board) (color : Color) (fromSq : Nat) (dr df : Int) :
    ∀ (fuel : Nat) (nr nf : Int), ∀ m ∈ slideGo board color fromSq dr df fuel nr nf,
      m.toSq < 64 := by
  intro fuel
  induction fuel with
  | zero => intro nr nf m hm; simp [slideGo] at hm
  | succ fuel ih =>
    intro nr nf m hm
    simp only [slideGo] at hm
    split at hm
    case isTrue hv =>
      split at hm
      case h_1 =>
        rcases List.mem_cons.1 hm with rfl | hm2
        · exact sqIdx_lt nr nf hv
        · exact ih (nr + dr) (nf + df) m hm2
      case h_2 =>
        split at hm
        · rcases List.mem_singleton.1 hm with rfl
          exact sqIdx_lt nr nf hv
        · simp at hm
    case isFalse => simp at hm

theorem addStep_toSq (board : Board) (color : Color) (fromSq : Nat) (r f dr df : Int) :
    ∀ m ∈ addStep board color fromSq r f dr df, m.toSq < 64 := by
  intro m hm
  simp only [addStep] at hm
  split at hm
  case isTrue hv =>
    split at hm
    case h_1 =>
      rcases List.mem_singleton.1 hm with rfl
      exact sqIdx_lt _ _ hv
    case h_2 =>
      split at hm
      · rcases List.mem_singleton.1 hm with rfl
        exact sqIdx_lt _ _ hv
      · simp at hm
  case isFalse => simp at hm

theorem addSlide_toSq (board : Board) (color : Color) (fromSq : Nat) (r f dr df : Int) :
    ∀ m ∈ addSlide board color fromSq r f dr df, m.toSq < 64 := by
  intro m hm
  unfold addSlide at hm
  exact slideGo_toSq board color fromSq dr df 8 (r + dr) (f + df) m hm

theorem pawnPseudoMoves_toSq (board : Board) (fromSq : Nat) (ep : Option Nat) (color : Color)
    (r f : Int) (hf : 0 ≤ f ∧ f < 8) :
    ∀ m ∈ pawnPseudoMoves board fromSq ep color r f, m.toSq < 64 := by
  intro m hm
  cases color <;>
  ( simp only [pawnPseudoMoves, reduceCtorEq, reduceIte, List.mem_append] at hm
    rcases hm with (h | h) | h
    · split at h
      case isTrue hv =>
        rw [Bool.and_eq_true] at hv
        rcases List.mem_append.1 h with h1 | h2
        · split at h1
          · rcases List.mem_map.1 h1 with ⟨pp, hpp, rfl⟩
            exact sqIdx_lt _ _ hv.1
          · rcases List.mem_singleton.1 h1 with rfl
            exact sqIdx_lt _ _ hv.1
        · split at h2
          case isTrue hr =>
            split at h2
            · rcases List.mem_singleton.1 h2 with rfl
              refine sqIdx_lt _ _ ?_
              rw [isValid_iff]
              omega
            · simp at h2
          case isFalse => simp at h2
      case isFalse => simp at h
    · split at h
      case isTrue hv =>
        rcases List.mem_append.1 h with h1 | h2
        · split at h1
          case h_1 =>
            split at h1
            · split at h1
              · rcases List.mem_map.1 h1 with ⟨pp, hpp, rfl⟩
                exact sqIdx_lt _ _ hv
              · rcases List.mem_singleton.1 h1 with rfl
                exact sqIdx_lt _ _ hv
            · simp at h1
          case h_2 => simp at h1
        · split at h2
          · rcases List.mem_singleton.1 h2 with rfl
            exact sqIdx_lt _ _ hv
          · simp at h2
      case isFalse => simp at h
    · split at h
      case isTrue hv =>
        rcases List.mem_append.1 h with h1 | h2
        · split at h1
          case h_1 =>
            split at h1
            · split at h1
              · rcases List.mem_map.1 h1 with ⟨pp, hpp, rfl⟩
                exact sqIdx_lt _ _ hv
              · rcases List.mem_singleton.1 h1 with rfl
                exact sqIdx_lt _ _ hv
            · simp at h1
          case h_2 => simp at h1
        · split at h2
          · rcases List.mem_singleton.1 h2 with rfl
            exact sqIdx_lt _ _ hv
          · simp at h2
      case isFalse => simp at h )

theorem kingBranchCastles_toSq (board : Board) (fromSq : Nat) (cr : CastlingRights)
    (color : Color) : ∀ m ∈ kingBranchCastles board fromSq cr color, m.toSq < 64 := by
  intro m hm
  cases color <;>
  ( simp only [kingBranchCastles, reduceIte] at hm
    rcases List.mem_append.1 hm with h | h
    · split at h
      · rcases List.mem_singleton.1 h with rfl
        simp
      · simp at h
    · split at h
      · rcases List.mem_singleton.1 h with rfl
        simp
      · simp at h )

theorem getCastlingMoves_toSq (board : Board) (color : Color) (cr : CastlingRights) :
    ∀ m ∈ _getCastlingMoves board color cr, m.toSq < 64 := by
  intro m hm
  cases color <;>
  ( simp only [_getCastlingMoves, reduceIte] at hm
    rcases List.mem_append.1 hm with h | h
    · split at h
      · rcases List.mem_singleton.1 h with rfl
        simp
      · simp at h
    · split at h
      · rcases List.mem_singleton.1 h with rfl
        simp
      · simp at h )

theorem getPseudoMoves_toSq (board : Board) (fromSq : Nat) (cr : CastlingRights)
    (ep : Option Nat) (color : Color) :
    ∀ m ∈ getPseudoMoves board fromSq cr ep color, m.toSq < 64 := by
  intro m hm
  have hf : (0 : Int) ≤ (colOf fromSq : Int) ∧ (colOf fromSq : Int) < 8 := by
    unfold colOf
    constructor
    · positivity
    · exact_mod_cast Nat.mod_lt fromSq (by omega)
  unfold getPseudoMoves at hm
  split at hm
  case h_1 => simp at hm
  case h_2 piece hcell =>
    split at hm
    · simp at hm
    · split at hm
      case h_1 => exact pawnPseudoMoves_toSq board fromSq ep color _ _ hf m hm
      case h_2 =>
        rcases List.mem_flatten.1 hm with ⟨l, hl, hml⟩
        rcases List.mem_map.1 hl with ⟨d, hd, rfl⟩
        exact addStep_toSq board color fromSq _ _ d.1 d.2 m hml
      case h_3 =>
        rcases List.mem_flatten.1 hm with ⟨l, hl, hml⟩
        rcases List.mem_map.1 hl with ⟨d, hd, rfl⟩
        exact addSlide_toSq board color fromSq _ _ d.1 d.2 m hml
      case h_4 =>
        rcases List.mem_flatten.1 hm with ⟨l, hl, hml⟩
        rcases List.mem_map.1 hl with ⟨d, hd, rfl⟩
        exact addSlide_toSq board color fromSq _ _ d.1 d.2 m hml
      case h_5 =>
        rcases List.mem_flatten.1 hm with ⟨l, hl, hml⟩
        rcases List.mem_map.1 hl with ⟨d, hd, rfl⟩
        exact addSlide_toSq board color fromSq _ _ d.1 d.2 m hml
      case h_6 =>
        rcases List.mem_append.1 hm with h | h
        · rcases List.mem_flatten.1 h with ⟨l, hl, hml⟩
          rcases List.mem_map.1 hl with ⟨d, hd, rfl⟩
          exact addStep_toSq board color fromSq _ _ d.1 d.2 m hml
        · exact kingBranchCastles_toSq board fromSq cr color m h

theorem getAllPseudoMoves_toSq (board : Board) (color : Color) (cr : CastlingRights)
    (ep : Option Nat) : ∀ m ∈ _getAllPseudoMoves board color cr ep, m.toSq < 64 := by
  intro m hm
  unfold _getAllPseudoMoves at hm
  rcases List.mem_append.1 hm with h | h
  · rcases List.mem_flatten.1 h with ⟨l, hl, hml⟩
    rcases List.mem_map.1 hl with ⟨i, hi, rfl⟩
    split at hml
    case h_1 p hp =>
      split at hml
      · exact getPseudoMoves_toSq board i cr ep color m hml
      · simp at hml
    case h_2 => simp at hml
  · exact getCastlingMoves_toSq board color cr m h

theorem getLegalMoves_toSq (e : Engine) (fromSq : Nat) :
    ∀ m ∈ getLegalMoves e fromSq, m.toSq < 64 := by
  intro m hm
  unfold getLegalMoves at hm
  exact getAllPseudoMoves_toSq e.board e.turn e.castlingRights e.enPassantTarget m
    (List.mem_of_mem_filter (List.mem_of_mem_filter hm))

theorem length_applyMoveToBoard (b : Board) (m : Move) :
    (applyMoveToBoard b m).length = b.length := by
  simp only [applyMoveToBoard]
  split <;> split <;> simp [List.length_set]

theorem checkGameEnd_board (e : Engine) (r : MoveRecord) :
    (_checkGameEnd e r).board = e.board := by
  unfold _checkGameEnd
  split
  · rfl
  · split
    · rfl
    · split
      · rfl
      · split
        · rfl
        · split <;> rfl

theorem checkGameEnd_ep (e : Engine) (r : MoveRecord) :
    (_checkGameEnd e r).enPassantTarget = e.enPassantTarget := by
  unfold _checkGameEnd
  split
  · rfl
  · split
    · rfl
    · split
      · rfl
      · split
        · rfl
        · split <;> rfl

theorem makeMove_fields (e : Engine) (cand : Candidate) (rec : MoveRecord) (e2 : Engine)
    (h : makeMove e cand = (some rec, e2)) :
    ∃ found ∈ getLegalMoves e cand.fromSq,
      e2.board = applyMoveToBoard e.board found ∧
      e2.enPassantTarget = (if found.type = MoveType.doublePush then
          some (if (match cell e.board cand.fromSq with
                    | some p => p.color
                    | none => Color.b) = Color.w
                then found.toSq + 8 else found.toSq - 8)
        else none) := by
  by_cases hg : e.gameOver
  · simp [makeMove, hg] at h
  · cases hf : (getLegalMoves e cand.fromSq).find? (fun m => candMatches cand m) with
    | none => simp [makeMove, hg, hf] at h
    | some found =>
      simp only [makeMove, hg, hf, Bool.false_eq_true, if_false] at h
      rw [Prod.mk.injEq, Option.some.injEq] at h
      obtain ⟨hrec, he2⟩ := h
      refine ⟨found, List.mem_of_find?_eq_some hf, ?_, ?_⟩
      · rw [← he2, checkGameEnd_board]
        rfl
      · rw [← he2, checkGameEnd_ep]
        rfl

theorem makeMove_WFE (e : Engine) (cand : Candidate) (rec : MoveRecord) (e2 : Engine)
    (hw : WFE e) (h : makeMove e cand = (some rec, e2)) : WFE e2 := by
  obtain ⟨found, hmem, hb, hep⟩ := makeMove_fields e cand rec e2 h
  have hto : found.toSq < 64 := getLegalMoves_toSq e cand.fromSq found hmem
  constructor
  · rw [hb, length_applyMoveToBoard, hw.1]
  · intro t ht
    rw [hep] at ht
    split at ht
    · split at ht <;> (rw [Option.some.injEq] at ht; omega)
    · simp at ht

theorem reset_WFE : WFE reset :=
  ⟨rfl, fun t ht => Option.noConfusion ht⟩

theorem Reachable_WFE (e : Engine) (h : Reachable e) : WFE e := by
  induction h with
  | start => exact reset_WFE
  | step e cand r e2 hr hmk ih => exact makeMove_WFE e cand r e2 ih hmk

/-- C6: for every reachable position, loading the FEN string produced by the
position export (`loadFEN (toFEN e)`) reproduces an identical position: the
same board array, turn, four castling rights, en-passant target, half-move
clock and full-move number. -/
theorem C6_fen_roundtrip (e : Engine) (h : Reachable e) :
    ∃ e2, loadFEN (toFEN e) = some e2 ∧ e2.board = e.board ∧ e2.turn = e.turn ∧
      e2.castlingRights = e.castlingRights ∧ e2.enPassantTarget = e.enPassantTarget ∧
      e2.halfMoveClock = e.halfMoveClock ∧ e2.fullMoveNumber = e.fullMoveNumber :=
  ⟨_, loadFEN_toFEN e (Reachable_WFE e h), rfl, rfl, rfl, rfl, rfl, rfl⟩

/-- Witness for C6 at the reachable reset state. -/
theorem C6_fen_roundtrip_witness :
    ∃ e2, loadFEN (toFEN reset) = some e2 ∧ e2.board = reset.board ∧
      e2.turn = reset.turn ∧ e2.castlingRights = reset.castlingRights ∧
      e2.enPassantTarget = reset.enPassantTarget ∧
      e2.halfMoveClock = reset.halfMoveClock ∧
      e2.fullMoveNumber = reset.fullMoveNumber :=
  C6_fen_roundtrip reset Reachable.start

/-! C8 support: fail-soft alpha-beta against the unpruned minimax. -/

theorem foldl_max_comm (l : List Score) :
    ∀ i j : Score, List.foldl max (max i j) l = max i (List.foldl max j l) := by
  induction l with
  | nil => intro i j; simp
  | cons x t ih =>
    intro i j
    simp only [List.foldl_cons]
    rw [max_assoc]
    exact ih i (max j x)

theorem foldl_min_comm (l : List Score) :
    ∀ i j : Score, List.foldl min (min i j) l = min i (List.foldl min j l) := by
  induction l with
  | nil => intro i j; simp
  | cons x t ih =>
    intro i j
    simp only [List.foldl_cons]
    rw [min_assoc]
    exact ih i (min j x)

theorem le_foldl_max (l : List Score) : ∀ i : Score, i ≤ List.foldl max i l := by
  induction l with
  | nil => intro i; exact le_refl i
  | cons x t ih =>
    intro i
    simp only [List.foldl_cons]
    exact le_trans (le_max_left i x) (ih (max i x))

theorem foldl_min_le (l : List Score) : ∀ i : Score, List.foldl min i l ≤ i := by
  induction l with
  | nil => intro i; exact le_refl i
  | cons x t ih =>
    intro i
    simp only [List.foldl_cons]
    exact le_trans (ih (min i x)) (min_le_left i x)

theorem abLoopMax_abrel (d : Nat) (E : Engine)
    (hIH : ∀ (e1 : Engine) (a b : Score), a < b →
      ABRel ((_minimax d e1 a b false).1) (minimaxFull d e1 false) a b) :
    ∀ (ms : List Move) (best a b : Score), a < b → best ≤ a →
      ABRel ((abLoopMax (fun e1 x y => _minimax d e1 x y false) ms E best a b).1)
        (List.foldl max best (ms.map (fun m => minimaxFull d (applyMoveFull E m) false)))
        a b := by
  intro ms
  induction ms with
  | nil =>
    intro best a b hab hba
    simp only [abLoopMax, List.map_nil, List.foldl_nil]
    exact ⟨fun _ => le_refl _, fun _ _ => rfl,
      fun hb => absurd (hb.trans hba) (not_le.mpr hab)⟩
  | cons m rest ih =>
    intro best a b hab hba
    simp only [abLoopMax, List.map_cons, List.foldl_cons]
    rw [minimax_state d (applyMoveFull E m) a b false, restore_save_applyMoveFull E m]
    set s := (_minimax d (applyMoveFull E m) a b false).1 with hs
    set Fm := minimaxFull d (applyMoveFull E m) false with hFm
    have hchild := hIH (applyMoveFull E m) a b hab
    rw [← hs, ← hFm] at hchild
    by_cases hcut : b ≤ max a (max best s)
    · rw [if_pos hcut]
      have hsb : b ≤ max best s := by
        rcases le_or_lt b (max best s) with h | h
        · exact h
        · exact absurd hcut (not_le.mpr (max_lt hab h))
      have hsge : b ≤ s := by
        rcases le_or_lt b s with h | h
        · exact h
        · exact absurd hsb (not_le.mpr (max_lt (lt_of_le_of_lt hba hab) h))
      have hsF : s ≤ Fm := hchild.2.2 hsge
      refine ⟨?_, ?_, ?_⟩
      · intro hv
        exact absurd (le_trans (le_max_right best s) hv)
          (not_le.mpr (lt_of_lt_of_le hab hsge))
      · intro hav hvb
        exact absurd hvb (not_lt.mpr (le_trans hsge (le_max_right best s)))
      · intro hbv
        exact le_trans (max_le_max (le_refl best) hsF) (le_foldl_max _ _)
    · rw [if_neg hcut]
      push_neg at hcut
      have hrec := ih (max best s) (max a (max best s)) b hcut (le_max_right _ _)
      have hR : List.foldl max (max best Fm)
            (rest.map (fun m2 => minimaxFull d (applyMoveFull E m2) false))
          = max Fm (List.foldl max best
            (rest.map (fun m2 => minimaxFull d (applyMoveFull E m2) false))) := by
        rw [max_comm best Fm]
        exact foldl_max_comm _ Fm best
      have hRp : List.foldl max (max best s)
            (rest.map (fun m2 => minimaxFull d (applyMoveFull E m2) false))
          = max s (List.foldl max best
            (rest.map (fun m2 => minimaxFull d (applyMoveFull E m2) false))) := by
        rw [max_comm best s]
        exact foldl_max_comm _ s best
      rw [hR]
      rw [hRp] at hrec
      set T := List.foldl max best
        (rest.map (fun m2 => minimaxFull d (applyMoveFull E m2) false)) with hT
      by_cases hsa : s ≤ a
      · have hFs : Fm ≤ s := hchild.1 hsa
        have haeq : max a (max best s) = a := max_eq_left (max_le hba hsa)
        rw [haeq] at hrec
        rw [haeq]
        obtain ⟨h1, h2, h3⟩ := hrec
        refine ⟨?_, ?_, ?_⟩
        · intro hv
          exact le_trans (max_le_max hFs (le_refl T)) (h1 hv)
        · intro hav hvb
          have he := h2 hav hvb
          have hsv : s < (abLoopMax (fun e1 x y => _minimax d e1 x y false)
              rest E (max best s) a b).1 := lt_of_le_of_lt hsa hav
          have hmax : max s T = T := by
            rcases max_cases s T with ⟨hm, hge⟩ | ⟨hm, hlt⟩
            · exfalso
              rw [he, hm] at hsv
              exact lt_irrefl s hsv
            · exact hm
          have hsT : s ≤ T := by
            rw [← hmax]
            exact le_max_left s T
          have hFmT : max Fm T = T := max_eq_right (hFs.trans hsT)
          rw [hFmT]
          rw [hmax] at he
          exact he
        · intro hbv
          have hvT := h3 hbv
          have hmax : max s T = T := by
            rcases max_cases s T with ⟨hm, hge⟩ | ⟨hm, hlt⟩
            · exfalso
              rw [hm] at hvT
              exact absurd hab (not_lt.mpr ((hbv.trans hvT).trans hsa))
            · exact hm
          rw [hmax] at hvT
          exact hvT.trans (le_max_right Fm T)
      · push_neg at hsa
        by_cases hsb2 : s < b
        · have hse : s = Fm := hchild.2.1 hsa hsb2
          have ha2 : max a (max best s) = s :=
            le_antisymm (max_le hsa.le (max_le (hba.trans hsa.le) (le_refl s)))
              (le_trans (le_max_right best s) (le_max_right a (max best s)))
          rw [ha2] at hrec
          rw [ha2, ← hse]
          obtain ⟨h1, h2, h3⟩ := hrec
          refine ⟨?_, ?_, ?_⟩
          · intro hv
            exact h1 (hv.trans hsa.le)
          · intro hav hvb
            rcases le_or_lt ((abLoopMax (fun e1 x y => _minimax d e1 x y false)
                rest E (max best s) s b).1) s with hvs | hvs
            · have hWv := h1 hvs
              have hsW : s ≤ max s T := le_max_left s T
              exact le_antisymm (hvs.trans hsW) hWv
            · exact h2 hvs hvb
          · exact h3
        · push_neg at hsb2
          exact absurd (lt_of_le_of_lt
            (le_trans (le_max_right best s) (le_max_right a (max best s))) hcut)
            (not_lt.mpr hsb2)

theorem abLoopMin_abrel (d : Nat) (E : Engine)
    (hIH : ∀ (e1 : Engine) (a b : Score), a < b →
      ABRel ((_minimax d e1 a b true).1) (minimaxFull d e1 true) a b) :
    ∀ (ms : List Move) (best a b : Score), a < b → b ≤ best →
      ABRel ((abLoopMin (fun e1 x y => _minimax d e1 x y true) ms E best a b).1)
        (List.foldl min best (ms.map (fun m => minimaxFull d (applyMoveFull E m) true)))
        a b := by
  intro ms
  induction ms with
  | nil =>
    intro best a b hab hba
    simp only [abLoopMin, List.map_nil, List.foldl_nil]
    exact ⟨fun hv => absurd (hba.trans hv) (not_le.mpr hab), fun _ _ => rfl,
      fun _ => le_refl _⟩
  | cons m rest ih =>
    intro best a b hab hba
    simp only [abLoopMin, List.map_cons, List.foldl_cons]
    rw [minimax_state d (applyMoveFull E m) a b true, restore_save_applyMoveFull E m]
    set s := (_minimax d (applyMoveFull E m) a b true).1 with hs
    set Fm := minimaxFull d (applyMoveFull E m) true with hFm
    have hchild := hIH (applyMoveFull E m) a b hab
    rw [← hs, ← hFm] at hchild
    by_cases hcut : min b (min best s) ≤ a
    · rw [if_pos hcut]
      have hsb : min best s ≤ a := by
        rcases le_or_lt (min best s) a with h | h
        · exact h
        · exact absurd hcut (not_le.mpr (lt_min hab h))
      have hsge : s ≤ a := by
        rcases le_or_lt s a with h | h
        · exact h
        · exact absurd hsb (not_le.mpr (lt_min (lt_of_lt_of_le hab hba) h))
      have hsF : Fm ≤ s := hchild.1 hsge
      refine ⟨?_, ?_, ?_⟩
      · intro hv
        exact le_trans (foldl_min_le _ _) (min_le_min (le_refl best) hsF)
      · intro hav hvb
        exact absurd hav (not_lt.mpr ((min_le_right best s).trans hsge))
      · intro hbv
        exact absurd (hbv.trans ((min_le_right best s).trans hsge)) (not_le.mpr hab)
    · rw [if_neg hcut]
      push_neg at hcut
      have hrec := ih (min best s) a (min b (min best s)) hcut (min_le_right _ _)
      have hR : List.foldl min (min best Fm)
            (rest.map (fun m2 => minimaxFull d (applyMoveFull E m2) true))
          = min Fm (List.foldl min best
            (rest.map (fun m2 => minimaxFull d (applyMoveFull E m2) true))) := by
        rw [min_comm best Fm]
        exact foldl_min_comm _ Fm best
      have hRp : List.foldl min (min best s)
            (rest.map (fun m2 => minimaxFull d (applyMoveFull E m2) true))
          = min s (List.foldl min best
            (rest.map (fun m2 => minimaxFull d (applyMoveFull E m2) true))) := by
        rw [min_comm best s]
        exact foldl_min_comm _ s best
      rw [hR]
      rw [hRp] at hrec
      set T := List.foldl min best
        (rest.map (fun m2 => minimaxFull d (applyMoveFull E m2) true)) with hT
      by_cases hsa : b ≤ s
      · have hFs : s ≤ Fm := hchild.2.2 hsa
        have hbeq : min b (min best s) = b := min_eq_left (le_min hba hsa)
        rw [hbeq] at hrec
        rw [hbeq]
        obtain ⟨h1, h2, h3⟩ := hrec
        refine ⟨?_, ?_, ?_⟩
        · intro hv
          have hvT := h1 hv
          have hmin : min s T = T := by
            rcases min_cases s T with ⟨hm, hle⟩ | ⟨hm, hlt⟩
            · exfalso
              rw [hm] at hvT
              exact absurd hab (not_lt.mpr ((hsa.trans hvT).trans hv))
            · exact hm
          rw [hmin] at hvT
          exact le_trans (min_le_right Fm T) hvT
        · intro hav hvb
          have he := h2 hav hvb
          have hsv : (abLoopMin (fun e1 x y => _minimax d e1 x y true)
              rest E (min best s) a b).1 < s := lt_of_lt_of_le hvb hsa
          have hmin : min s T = T := by
            rcases min_cases s T with ⟨hm, hle⟩ | ⟨hm, hlt⟩
            · exfalso
              rw [he, hm] at hsv
              exact lt_irrefl s hsv
            · exact hm
          have hTs : T ≤ s := by
            rw [← hmin]
            exact min_le_left s T
          have hFmT : min Fm T = T := min_eq_right (hTs.trans hFs)
          rw [hFmT]
          rw [hmin] at he
          exact he
        · intro hbv
          exact le_trans (h3 hbv) (min_le_min hFs (le_refl T))
      · push_neg at hsa
        by_cases hsb2 : a < s
        · have hse : s = Fm := hchild.2.1 hsb2 hsa
          have hb2 : min b (min best s) = s :=
            le_antisymm (le_trans (min_le_right b (min best s)) (min_le_right best s))
              (le_min hsa.le (le_min (hsa.le.trans hba) (le_refl s)))
          rw [hb2] at hrec
          rw [hb2, ← hse]
          obtain ⟨h1, h2, h3⟩ := hrec
          refine ⟨?_, ?_, ?_⟩
          · exact h1
          · intro hav hvb
            rcases le_or_lt s ((abLoopMin (fun e1 x y => _minimax d e1 x y true)
                rest E (min best s) a s).1) with hvs | hvs
            · have hWv := h3 hvs
              exact le_antisymm hWv ((min_le_left s T).trans hvs)
            · exact h2 hav hvs
          · intro hbv
            exact h3 (hsa.le.trans hbv)
        · push_neg at hsb2
          exact absurd (lt_of_lt_of_le hcut
            (le_trans (min_le_right b (min best s)) (min_le_right best s)))
            (not_lt.mpr hsb2)

theorem sortByOrderScore_eq_nil (e : Engine) (l : List Move)
    (h : sortByOrderScore e l = []) : l = [] := by
  have hlen := congrArg List.length h
  rw [sortByOrderScore, List.length_mergeSort] at hlen
  exact List.eq_nil_of_length_eq_zero hlen

theorem toScore_bot_lt (q : ℚ) : ⊥ < toScore q := WithBot.bot_lt_coe _

theorem toScore_lt_top (q : ℚ) : toScore q < ⊤ := by
  unfold toScore
  rw [← WithBot.coe_top]
  exact WithBot.coe_lt_coe.mpr (WithTop.coe_lt_top q)

theorem abLoopMax_finite (d : Nat) (E : Engine)
    (hIH : ∀ (e1 : Engine) (a b : Score),
      ⊥ < (_minimax d e1 a b false).1 ∧ (_minimax d e1 a b false).1 < ⊤) :
    ∀ (ms : List Move) (best a b : Score), best < ⊤ → (ms = [] → ⊥ < best) →
      ⊥ < (abLoopMax (fun e1 x y => _minimax d e1 x y false) ms E best a b).1 ∧
        (abLoopMax (fun e1 x y => _minimax d e1 x y false) ms E best a b).1 < ⊤ := by
  intro ms
  induction ms with
  | nil =>
    intro best a b htop hnil
    simp only [abLoopMax]
    exact ⟨hnil rfl, htop⟩
  | cons m rest ih =>
    intro best a b htop hnil
    simp only [abLoopMax]
    rw [minimax_state d (applyMoveFull E m) a b false, restore_save_applyMoveFull E m]
    have hch := hIH (applyMoveFull E m) a b
    split
    · exact ⟨lt_of_lt_of_le hch.1 (le_max_right best _), max_lt htop hch.2⟩
    · exact ih _ _ b (max_lt htop hch.2)
        (fun _ => lt_of_lt_of_le hch.1 (le_max_right best _))

theorem abLoopMin_finite (d : Nat) (E : Engine)
    (hIH : ∀ (e1 : Engine) (a b : Score),
      ⊥ < (_minimax d e1 a b true).1 ∧ (_minimax d e1 a b true).1 < ⊤) :
    ∀ (ms : List Move) (best a b : Score), ⊥ < best → (ms = [] → best < ⊤) →
      ⊥ < (abLoopMin (fun e1 x y => _minimax d e1 x y true) ms E best a b).1 ∧
        (abLoopMin (fun e1 x y => _minimax d e1 x y true) ms E best a b).1 < ⊤ := by
  intro ms
  induction ms with
  | nil =>
    intro best a b hbot hnil
    simp only [abLoopMin]
    exact ⟨hbot, hnil rfl⟩
  | cons m rest ih =>
    intro best a b hbot hnil
    simp only [abLoopMin]
    rw [minimax_state d (applyMoveFull E m) a b true, restore_save_applyMoveFull E m]
    have hch := hIH (applyMoveFull E m) a b
    split
    · exact ⟨lt_min hbot hch.1, lt_of_le_of_lt (min_le_right best _) hch.2⟩
    · exact ih _ a _ (lt_min hbot hch.1)
        (fun _ => lt_of_le_of_lt (min_le_right best _) hch.2)

theorem minimax_finite : ∀ (d : Nat) (e : Engine) (a b : Score) (isMax : Bool),
    ⊥ < (_minimax d e a b isMax).1 ∧ (_minimax d e a b isMax).1 < ⊤ := by
  intro d
  induction d with
  | zero => intro e a b isMax; exact ⟨toScore_bot_lt _, toScore_lt_top _⟩
  | succ d ih =>
    intro e a b isMax
    simp only [_minimax]
    split
    · exact ⟨toScore_bot_lt _, toScore_lt_top _⟩
    · split
      · split
        · split
          · exact ⟨toScore_bot_lt _, toScore_lt_top _⟩
          · exact ⟨toScore_bot_lt _, toScore_lt_top _⟩
        · exact ⟨toScore_bot_lt _, toScore_lt_top _⟩
      · rename_i hne
        split
        · exact abLoopMax_finite d e (fun e1 a1 b1 => ih e1 a1 b1 false) _ ⊥ a b
            bot_lt_top (fun hemp => absurd (sortByOrderScore_eq_nil e _ hemp) hne)
        · exact abLoopMin_finite d e (fun e1 a1 b1 => ih e1 a1 b1 true) _ ⊤ a b
            bot_lt_top (fun hemp => absurd (sortByOrderScore_eq_nil e _ hemp) hne)

theorem minimax_abrel : ∀ (d : Nat) (e : Engine) (a b : Score), a < b → ∀ isMax : Bool,
    ABRel ((_minimax d e a b isMax).1) (minimaxFull d e isMax) a b := by
  intro d
  induction d with
  | zero =>
    intro e a b hab isMax
    exact ⟨fun _ => le_refl _, fun _ _ => rfl, fun _ => le_refl _⟩
  | succ d ih =>
    intro e a b hab isMax
    simp only [_minimax, minimaxFull]
    split
    · exact ⟨fun _ => le_refl _, fun _ _ => rfl, fun _ => le_refl _⟩
    · split
      · exact ⟨fun _ => le_refl _, fun _ _ => rfl, fun _ => le_refl _⟩
      · split
        · exact abLoopMax_abrel d e (fun e1 a1 b1 h => ih e1 a1 b1 h false) _ ⊥ a b
            hab bot_le
        · exact abLoopMin_abrel d e (fun e1 a1 b1 h => ih e1 a1 b1 h true) _ ⊤ a b
            hab le_top

/-- C8: for every position and every fixed search depth, the score computed
by the alpha-beta search entered with the full window `-∞..+∞` equals the
score of the unpruned full minimax traversal of the same legal-move tree
with the same evaluator, terminal scoring and move ordering. -/
theorem C8_alphabeta_eq_minimax (d : Nat) (e : Engine) (isMax : Bool) :
    (_minimax d e ⊥ ⊤ isMax).1 = minimaxFull d e isMax :=
  (minimax_abrel d e ⊥ ⊤ bot_lt_top isMax).2.1 (minimax_finite d e ⊥ ⊤ isMax).1
    (minimax_finite d e ⊥ ⊤ isMax).2

/-! C1 support: nibble arithmetic of the packed board. -/

theorem fcell_lt (b i : Nat) : fcell b i < 16 := Nat.mod_lt _ (by omega)

theorem fcell_ge (b i : Nat) (hb : b < 16 ^ 64) (hi : 64 ≤ i) : fcell b i = 0 := by
  unfold fcell
  have hbi : b < 16 ^ i := lt_of_lt_of_le hb (Nat.pow_le_pow_right (by omega) hi)
  rw [Nat.div_eq_of_lt hbi]

theorem lowDigit (X lo i j : Nat) (hji : j < i) :
    (X * 16 ^ i + lo) / 16 ^ j % 16 = lo / 16 ^ j % 16 := by
  have hexp : (16 : Nat) ^ i = 16 ^ j * (16 * 16 ^ (i - j - 1)) := by
    rw [← pow_succ', ← pow_add]
    congr 1
    omega
  have h1 : X * 16 ^ i + lo = 16 ^ j * (16 * (X * 16 ^ (i - j - 1))) + lo := by
    rw [hexp]; ring
  rw [h1, Nat.mul_add_div (Nat.pow_pos (by omega)), Nat.mul_add_mod]

theorem midDigit (X lo i : Nat) (hlo : lo < 16 ^ i) :
    (X * 16 ^ i + lo) / 16 ^ i % 16 = X % 16 := by
  rw [show X * 16 ^ i + lo = 16 ^ i * X + lo from by ring,
    Nat.mul_add_div (Nat.pow_pos (by omega)), Nat.div_eq_of_lt hlo, Nat.add_zero]

theorem highDigit (X lo i j : Nat) (hij : i < j) (hlo : lo < 16 ^ (i + 1)) :
    (X * 16 ^ (i + 1) + lo) / 16 ^ j % 16 = X / 16 ^ (j - i - 1) % 16 := by
  have h16 : (16 : Nat) ^ j = 16 ^ (i + 1) * 16 ^ (j - i - 1) := by
    rw [← pow_add]
    congr 1
    omega
  rw [h16, ← Nat.div_div_eq_div_mul]
  rw [show X * 16 ^ (i + 1) + lo = 16 ^ (i + 1) * X + lo from by ring,
    Nat.mul_add_div (Nat.pow_pos (by omega)), Nat.div_eq_of_lt hlo, Nat.add_zero]

theorem fset_lt (b i c : Nat) (hb : b < 16 ^ 64) (hc : c < 16) :
    fset b i c < 16 ^ 64 := by
  unfold fset
  split
  case isFalse => exact hb
  case isTrue hi =>
    have hA : b / 16 ^ (i + 1) < 16 ^ (63 - i) := by
      rw [Nat.div_lt_iff_lt_mul (Nat.pow_pos (by omega)), ← pow_add]
      exact lt_of_lt_of_le hb (Nat.pow_le_pow_right (by omega) (by omega))
    have hlo : c * 16 ^ i + b % 16 ^ i < 16 ^ (i + 1) := by
      have h1 : b % 16 ^ i < 16 ^ i := Nat.mod_lt _ (Nat.pow_pos (by omega))
      have h2 : c * 16 ^ i ≤ 15 * 16 ^ i := Nat.mul_le_mul_right _ (by omega)
      rw [pow_succ]
      omega
    calc b / 16 ^ (i + 1) * 16 ^ (i + 1) + c * 16 ^ i + b % 16 ^ i
        = b / 16 ^ (i + 1) * 16 ^ (i + 1) + (c * 16 ^ i + b % 16 ^ i) := by ring
      _ < b / 16 ^ (i + 1) * 16 ^ (i + 1) + 16 ^ (i + 1) := by omega
      _ = (b / 16 ^ (i + 1) + 1) * 16 ^ (i + 1) := by ring
      _ ≤ 16 ^ (63 - i) * 16 ^ (i + 1) := Nat.mul_le_mul_right _ (by omega)
      _ = 16 ^ 64 := by rw [← pow_add]; congr 1; omega

theorem fcell_fset (b i c j : Nat) (hc : c < 16) :
    fcell (fset b i c) j = if j = i ∧ i < 64 then c else fcell b j := by
  unfold fcell fset
  by_cases hi : i < 64
  case neg => rw [if_neg hi, if_neg (by tauto)]
  case pos =>
    rw [if_pos hi]
    have hpos : 0 < (16 : Nat) ^ i := Nat.pow_pos (by omega)
    have hmod : b % 16 ^ i < 16 ^ i := Nat.mod_lt _ hpos
    have h1 : b / 16 ^ (i + 1) * 16 ^ (i + 1) + c * 16 ^ i + b % 16 ^ i
        = (b / 16 ^ (i + 1) * 16 + c) * 16 ^ i + b % 16 ^ i := by
      rw [pow_succ]; ring
    rcases Nat.lt_trichotomy j i with hj | heq | hj
    · rw [if_neg (by omega), h1, lowDigit _ _ i j hj]
      conv_rhs => rw [← Nat.div_add_mod b (16 ^ i), Nat.mul_comm (16 ^ i) (b / 16 ^ i)]
      rw [lowDigit _ _ i j hj]
    · subst heq
      rw [if_pos ⟨rfl, hi⟩, h1, midDigit _ _ j hmod,
        show b / 16 ^ (j + 1) * 16 + c = 16 * (b / 16 ^ (j + 1)) + c from by ring,
        Nat.mul_add_mod, Nat.mod_eq_of_lt hc]
    · rw [if_neg (by omega)]
      have hlo : c * 16 ^ i + b % 16 ^ i < 16 ^ (i + 1) := by
        have h2 : c * 16 ^ i ≤ 15 * 16 ^ i := Nat.mul_le_mul_right _ (by omega)
        rw [pow_succ]
        omega
      rw [show b / 16 ^ (i + 1) * 16 ^ (i + 1) + c * 16 ^ i + b % 16 ^ i
          = b / 16 ^ (i + 1) * 16 ^ (i + 1) + (c * 16 ^ i + b % 16 ^ i) from by ring,
        highDigit _ _ i j hj hlo, Nat.div_div_eq_div_mul, ← pow_add,
        show i + 1 + (j - i - 1) = j from by omega]

theorem pieceCode_lt (x : Option Piece) : pieceCode x < 16 := by
  rcases x with _ | ⟨⟨cw | cb⟩, t⟩ <;> first
    | decide
    | (cases t <;> decide)

/-! C1 support: the recursor combinators equal the list functions. -/

theorem fAppend_eq {α : Type} (l1 l2 : List α) : fAppend l1 l2 = l1 ++ l2 := by
  induction l1 with
  | nil => rfl
  | cons a t ih => show a :: fAppend t l2 = _; rw [ih]; rfl

theorem fAny_eq {α : Type} (p : α → Bool) (l : List α) : fAny p l = l.any p := by
  induction l with
  | nil => rfl
  | cons a t ih => show (p a || fAny p t) = _; rw [ih]; rfl

theorem fAll_eq {α : Type} (p : α → Bool) (l : List α) : fAll p l = l.all p := by
  induction l with
  | nil => rfl
  | cons a t ih => show (p a && fAll p t) = _; rw [ih]; rfl

theorem fMap_eq {α β : Type} (g : α → β) (l : List α) : fMap g l = l.map g := by
  induction l with
  | nil => rfl
  | cons a t ih => show g a :: fMap g t = _; rw [ih]; rfl

theorem fFilter_eq {α : Type} (p : α → Bool) (l : List α) : fFilter p l = l.filter p := by
  induction l with
  | nil => rfl
  | cons a t ih =>
    show (if p a then a :: fFilter p t else fFilter p t) = _
    rw [ih, List.filter_cons]

theorem fSum_eq (g : Move → Nat) (l : List Move) :
    ∀ acc : Nat, (l.map g).foldl (fun x y => x + y) acc = acc + fSum g l := by
  induction l with
  | nil => intro acc; show acc = acc + 0; omega
  | cons a t ih =>
    intro acc
    show (t.map g).foldl (fun x y => x + y) (acc + g a) = acc + (g a + fSum g t)
    rw [ih (acc + g a), Nat.add_assoc]

theorem fFlatDirs_eq {α : Type} (g : α → List Move) (l : List α) :
    fFlatDirs g l = (l.map g).flatten := by
  induction l with
  | nil => rfl
  | cons a t ih => show fAppend (g a) (fFlatDirs g t) = _; rw [fAppend_eq, ih]; rfl

theorem fIdxFlat_eq {α : Type} (g : Nat → List α) :
    ∀ (count i : Nat), fIdxFlat g count i = ((List.range' i count).map g).flatten := by
  intro count
  induction count with
  | zero => intro i; rfl
  | succ c ih =>
    intro i
    show fAppend (g i) (fIdxFlat g c (i + 1)) = _
    rw [fAppend_eq, ih (i + 1), List.range'_succ]
    rfl

theorem fFindIdx_eq (p : Nat → Bool) :
    ∀ (count i : Nat), fFindIdx p count i = (List.range' i count).find? p := by
  intro count
  induction count with
  | zero => intro i; rfl
  | succ c ih =>
    intro i
    show (if p i then some i else fFindIdx p c (i + 1)) = _
    rw [List.range'_succ]
    by_cases h : p i = true
    · rw [if_pos h, List.find?_cons_of_pos _ h]
    · rw [if_neg h, List.find?_cons_of_neg _ (by simp [h]), ih (i + 1)]

/-! C1 support: piece-code bridges between the packed and the list board. -/

theorem code_zero_isNone : ∀ x : Option Piece, (pieceCode x == 0) = x.isNone := by decide

theorem code_isColor_eq : ∀ (p : Piece) (c : Color),
    codeIsColor (pieceCode (some p)) c = decide (p.color = c) := by decide

theorem fSlideGo_succ (b : Nat) (color : Color) (fromSq : Nat) (dr df : Int)
    (fuel : Nat) (nr nf : Int) :
    fSlideGo b color fromSq dr df (fuel + 1) nr nf =
      (if isValid nr nf then
        if fcell b (sqIdx nr nf) == 0 then
          { fromSq := fromSq, toSq := sqIdx nr nf, type := MoveType.normal }
            :: fSlideGo b color fromSq dr df fuel (nr + dr) (nf + df)
        else if codeIsColor (fcell b (sqIdx nr nf)) color then []
        else [{ fromSq := fromSq, toSq := sqIdx nr nf, type := MoveType.capture }]
      else []) := rfl

theorem fSlideGo_eq (b : Nat) (l : Board)
    (hcell : ∀ i, fcell b i = pieceCode (cell l i))
    (color : Color) (fromSq : Nat) (dr df : Int) :
    ∀ (fuel : Nat) (nr nf : Int),
      fSlideGo b color fromSq dr df fuel nr nf = slideGo l color fromSq dr df fuel nr nf := by
  intro fuel
  induction fuel with
  | zero => intro nr nf; rfl
  | succ fuel ih =>
    intro nr nf
    rw [fSlideGo_succ]
    show _ = slideGo l color fromSq dr df (fuel + 1) nr nf
    rw [slideGo]
    by_cases hv : isValid nr nf = true
    · rw [if_pos hv, if_pos hv, hcell (sqIdx nr nf)]
      cases hc : cell l (sqIdx nr nf) with
      | none =>
        rw [code_zero_isNone, Option.isNone_none, if_pos rfl, ih (nr + dr) (nf + df)]
        simp only [hc]
      | some p =>
        rw [code_zero_isNone, Option.isNone_some, if_neg (by simp), code_isColor_eq]
        simp only [hc]
        by_cases hpc : p.color = color
        · rw [if_pos (by simp [hpc]), if_neg (by simp [hpc])]
        · rw [if_neg (by simp [hpc]), if_pos (by simp [hpc])]
    · rw [if_neg hv, if_neg hv]

theorem fAddSlide_eq (b : Nat) (l : Board)
    (hcell : ∀ i, fcell b i = pieceCode (cell l i))
    (color : Color) (fromSq : Nat) (r f dr df : Int) :
    fAddSlide b color fromSq r f dr df = addSlide l color fromSq r f dr df :=
  fSlideGo_eq b l hcell color fromSq dr df 8 (r + dr) (f + df)

theorem fAddStep_eq (b : Nat) (l : Board)
    (hcell : ∀ i, fcell b i = pieceCode (cell l i))
    (color : Color) (fromSq : Nat) (r f dr df : Int) :
    fAddStep b color fromSq r f dr df = addStep l color fromSq r f dr df := by
  simp only [fAddStep, addStep]
  by_cases hv : isValid (r + dr) (f + df) = true
  · rw [if_pos hv, if_pos hv, hcell (sqIdx (r + dr) (f + df))]
    cases hc : cell l (sqIdx (r + dr) (f + df)) with
    | none =>
      rw [code_zero_isNone, Option.isNone_none, if_pos rfl]
    | some p =>
      rw [code_zero_isNone, Option.isNone_some, if_neg (by simp), code_isColor_eq]
      by_cases hpc : p.color = color
      · rw [if_pos (by simp [hpc])]
        simp [hpc]
      · rw [if_neg (by simp [hpc])]
        simp [hpc]
  · rw [if_neg hv, if_neg hv]

theorem capCell_eq (l : Board) (tSq : Nat) (color : Color) (more : List Move) :
    (if (cell l tSq).isNone = true then []
     else if codeIsColor (pieceCode (cell l tSq)) color = true then []
     else more)
    = (match cell l tSq with
       | some p => if p.color ≠ color then more else []
       | none => []) := by
  cases hc : cell l tSq with
  | none => rw [Option.isNone_none, if_pos rfl]
  | some p =>
    rw [Option.isNone_some, if_neg (by simp), code_isColor_eq]
    by_cases hpc : p.color = color
    · rw [if_pos (by simp [hpc])]
      simp [hpc]
    · rw [if_neg (by simp [hpc])]
      simp [hpc]

theorem epPart_eq (ep : Option Nat) (tSq : Nat) (mv : Move) :
    (match ep with
     | some t => if (t == tSq) = true then [mv] else []
     | none => []) = (if ep = some tSq then [mv] else []) := by
  cases ep with
  | none => rw [if_neg (by simp)]
  | some t =>
    by_cases h : t = tSq
    · subst h
      rw [if_pos rfl]
      simp
    · rw [if_neg (by simp [h])]
      simp [h]

theorem fPawnMoves_eq (b : Nat) (l : Board)
    (hcell : ∀ i, fcell b i = pieceCode (cell l i))
    (fromSq : Nat) (ep : Option Nat) (color : Color) (r f : Int) :
    fPawnMoves b fromSq ep color r f = pawnPseudoMoves l fromSq ep color r f := by
  simp only [fPawnMoves, pawnPseudoMoves, fAppend_eq, fMap_eq, hcell, code_zero_isNone]
  rw [capCell_eq, capCell_eq, epPart_eq, epPart_eq, List.append_assoc]

theorem code_wR : ∀ x : Option Piece,
    (pieceCode x == 4) = decide (x = some ⟨Color.w, PType.R⟩) := by decide

theorem code_bR : ∀ x : Option Piece,
    (pieceCode x == 10) = decide (x = some ⟨Color.b, PType.R⟩) := by decide

theorem fKingBranchCastles_eq (b : Nat) (l : Board)
    (hcell : ∀ i, fcell b i = pieceCode (cell l i))
    (fromSq : Nat) (cr : CastlingRights) (color : Color) :
    fKingBranchCastles b fromSq cr color = kingBranchCastles l fromSq cr color := by
  cases color <;>
    simp only [fKingBranchCastles, kingBranchCastles, fAppend_eq, hcell, code_zero_isNone,
      code_wR, code_bR, reduceCtorEq, if_true, if_false, eq_self_iff_true,
      Bool.false_eq_true]

theorem fGetCastlingMoves_eq (b : Nat) (l : Board)
    (hcell : ∀ i, fcell b i = pieceCode (cell l i))
    (color : Color) (cr : CastlingRights) :
    fGetCastlingMoves b color cr = _getCastlingMoves l color cr := by
  cases color <;>
    simp only [fGetCastlingMoves, _getCastlingMoves, fAppend_eq, hcell, code_zero_isNone,
      code_wR, code_bR, reduceCtorEq, if_true, if_false, eq_self_iff_true,
      Bool.false_eq_true]

theorem fFlatSteps_eq (b : Nat) (l : Board)
    (hcell : ∀ i, fcell b i = pieceCode (cell l i))
    (color : Color) (fromSq : Nat) (r f : Int) (dirs : List (Int × Int)) :
    fFlatDirs (fun d => fAddStep b color fromSq r f d.1 d.2) dirs
      = ((dirs.map (fun d => addStep l color fromSq r f d.1 d.2))).flatten := by
  rw [fFlatDirs_eq,
    show (fun d : Int × Int => fAddStep b color fromSq r f d.1 d.2)
        = fun d : Int × Int => addStep l color fromSq r f d.1 d.2 from
      funext fun d => fAddStep_eq b l hcell color fromSq r f d.1 d.2]

theorem fFlatSlides_eq (b : Nat) (l : Board)
    (hcell : ∀ i, fcell b i = pieceCode (cell l i))
    (color : Color) (fromSq : Nat) (r f : Int) (dirs : List (Int × Int)) :
    fFlatDirs (fun d => fAddSlide b color fromSq r f d.1 d.2) dirs
      = ((dirs.map (fun d => addSlide l color fromSq r f d.1 d.2))).flatten := by
  rw [fFlatDirs_eq,
    show (fun d : Int × Int => fAddSlide b color fromSq r f d.1 d.2)
        = fun d : Int × Int => addSlide l color fromSq r f d.1 d.2 from
      funext fun d => fAddSlide_eq b l hcell color fromSq r f d.1 d.2]

theorem fGetPseudoMoves_eq (b : Nat) (l : Board)
    (hcell : ∀ i, fcell b i = pieceCode (cell l i))
    (fromSq : Nat) (cr : CastlingRights) (ep : Option Nat) (color : Color) :
    fGetPseudoMoves b fromSq cr ep color = getPseudoMoves l fromSq cr ep color := by
  simp only [fGetPseudoMoves, getPseudoMoves, hcell]
  cases hc : cell l fromSq with
  | none => simp [pieceCode]
  | some p =>
    obtain ⟨pc, pt⟩ := p
    cases pt with
    | P =>
      cases pc <;> cases color <;> simp [pieceCode, codeIsColor] <;>
        exact fPawnMoves_eq b l hcell fromSq ep _ _ _
    | N =>
      cases pc <;> cases color <;> simp [pieceCode, codeIsColor] <;>
        exact fFlatSteps_eq b l hcell _ fromSq _ _ _
    | B =>
      cases pc <;> cases color <;> simp [pieceCode, codeIsColor] <;>
        exact fFlatSlides_eq b l hcell _ fromSq _ _ _
    | R =>
      cases pc <;> cases color <;> simp [pieceCode, codeIsColor] <;>
        exact fFlatSlides_eq b l hcell _ fromSq _ _ _
    | Q =>
      cases pc <;> cases color <;> simp [pieceCode, codeIsColor] <;>
        exact fFlatSlides_eq b l hcell _ fromSq _ _ _
    | K =>
      cases pc <;> cases color <;> simp [pieceCode, codeIsColor] <;>
        rw [fAppend_eq, fFlatSteps_eq b l hcell, fKingBranchCastles_eq b l hcell]

theorem code_pawn : ∀ (x : Option Piece) (c : Color),
    (pieceCode x == colorCode c 1) = decide (x = some ⟨c, PType.P⟩) := by decide

theorem code_knight : ∀ (x : Option Piece) (c : Color),
    (pieceCode x == colorCode c 2) = decide (x = some ⟨c, PType.N⟩) := by decide

theorem code_king : ∀ (x : Option Piece) (c : Color),
    (pieceCode x == colorCode c 6) = decide (x = some ⟨c, PType.K⟩) := by decide

theorem code_slide_diag : ∀ (p : Piece) (c : Color),
    ((pieceCode (some p) == colorCode c 3) || (pieceCode (some p) == colorCode c 5))
      = decide (p = ⟨c, PType.B⟩ ∨ p = ⟨c, PType.Q⟩) := by decide

theorem code_slide_ortho : ∀ (p : Piece) (c : Color),
    ((pieceCode (some p) == colorCode c 4) || (pieceCode (some p) == colorCode c 5))
      = decide (p = ⟨c, PType.R⟩ ∨ p = ⟨c, PType.Q⟩) := by decide

theorem fSlideAttackGo_succ (b : Nat) (c1 c2 : Nat) (dr df : Int) (fuel : Nat) (ar af : Int) :
    fSlideAttackGo b c1 c2 dr df (fuel + 1) ar af =
      (if isValid ar af then
        if fcell b (sqIdx ar af) == 0 then fSlideAttackGo b c1 c2 dr df fuel (ar + dr) (af + df)
        else fcell b (sqIdx ar af) == c1 || fcell b (sqIdx ar af) == c2
      else false) := rfl

theorem fSlideAttackGo_eq (b : Nat) (l : Board)
    (hcell : ∀ i, fcell b i = pieceCode (cell l i))
    (c1 c2 : Nat) (byColor : Color) (t1 t2 : PType)
    (hbr : ∀ p : Piece, ((pieceCode (some p) == c1) || (pieceCode (some p) == c2))
      = decide (p = ⟨byColor, t1⟩ ∨ p = ⟨byColor, t2⟩))
    (dr df : Int) :
    ∀ (fuel : Nat) (ar af : Int),
      fSlideAttackGo b c1 c2 dr df fuel ar af
        = slideAttackGo l byColor t1 t2 dr df fuel ar af := by
  intro fuel
  induction fuel with
  | zero => intro ar af; rfl
  | succ fuel ih =>
    intro ar af
    rw [fSlideAttackGo_succ]
    show _ = slideAttackGo l byColor t1 t2 dr df (fuel + 1) ar af
    rw [slideAttackGo]
    by_cases hv : isValid ar af = true
    · rw [if_pos hv, if_pos hv, hcell (sqIdx ar af)]
      cases hc : cell l (sqIdx ar af) with
      | none =>
        rw [code_zero_isNone, Option.isNone_none, if_pos rfl]
        exact ih (ar + dr) (af + df)
      | some p =>
        rw [code_zero_isNone, Option.isNone_some, if_neg (by simp)]
        exact hbr p
    · rw [if_neg hv, if_neg hv]

theorem fIsAttacked_eq (b : Nat) (l : Board)
    (hcell : ∀ i, fcell b i = pieceCode (cell l i))
    (sq : Nat) (byColor : Color) :
    fIsAttacked b sq byColor = isAttacked l sq byColor := by
  simp only [fIsAttacked, isAttacked, fAny_eq, hcell, code_pawn, code_knight, code_king]
  rw [show (fun d : Int × Int => fSlideAttackGo b (colorCode byColor 3) (colorCode byColor 5)
        d.1 d.2 8 (↑(rowOf sq) + d.1) (↑(colOf sq) + d.2))
      = (fun d : Int × Int => slideAttackGo l byColor PType.B PType.Q
        d.1 d.2 8 (↑(rowOf sq) + d.1) (↑(colOf sq) + d.2)) from
    funext fun d => fSlideAttackGo_eq b l hcell _ _ byColor PType.B PType.Q
      (fun p => code_slide_diag p byColor) d.1 d.2 8 _ _]
  rw [show (fun d : Int × Int => fSlideAttackGo b (colorCode byColor 4) (colorCode byColor 5)
        d.1 d.2 8 (↑(rowOf sq) + d.1) (↑(colOf sq) + d.2))
      = (fun d : Int × Int => slideAttackGo l byColor PType.R PType.Q
        d.1 d.2 8 (↑(rowOf sq) + d.1) (↑(colOf sq) + d.2)) from
    funext fun d => fSlideAttackGo_eq b l hcell _ _ byColor PType.R PType.Q
      (fun p => code_slide_ortho p byColor) d.1 d.2 8 _ _]

theorem fFindKing_eq (b : Nat) (l : Board)
    (hcell : ∀ i, fcell b i = pieceCode (cell l i)) (color : Color) :
    fFindKing b color = findKing l color := by
  unfold fFindKing findKing
  rw [fFindIdx_eq, ← List.range_eq_range']
  rw [show (fun i => fcell b i == colorCode color 6)
      = (fun i => decide (cell l i = some ⟨color, PType.K⟩)) from
    funext fun i => by rw [hcell i]; exact code_king (cell l i) color]

theorem fIsInCheck_eq (b : Nat) (l : Board)
    (hcell : ∀ i, fcell b i = pieceCode (cell l i)) (color : Color) :
    fIsInCheck b color = isInCheck l color := by
  unfold fIsInCheck isInCheck
  rw [fFindKing_eq b l hcell]
  cases findKing l color with
  | none => rfl
  | some k => exact fIsAttacked_eq b l hcell k (opp color)

theorem cell_set (l : Board) (hlen : l.length = 64) (i : Nat) (x : Option Piece) (j : Nat) :
    cell (l.set i x) j = if j = i ∧ i < 64 then x else cell l j := by
  unfold cell
  by_cases h : j = i ∧ i < 64
  · obtain ⟨rfl, hi⟩ := h
    rw [if_pos ⟨rfl, hi⟩, List.getD_eq_getElem?_getD, List.getElem?_set, if_pos rfl,
      if_pos (by rw [hlen]; exact hi)]
    rfl
  · rw [if_neg h, List.getD_eq_getElem?_getD, List.getD_eq_getElem?_getD, List.getElem?_set]
    by_cases hij : i = j
    · subst hij
      have hge : ¬ i < 64 := fun hlt => h ⟨rfl, hlt⟩
      rw [if_pos rfl, if_neg (by rw [hlen]; exact hge),
        List.getElem?_eq_none (by rw [hlen]; omega)]
    · rw [if_neg hij]

theorem set_rel (b : Nat) (l : Board) (hrel : BRel b l) (i : Nat) (x : Option Piece) :
    BRel (fset b i (pieceCode x)) (l.set i x) := by
  obtain ⟨hb, hlen, hcell⟩ := hrel
  refine ⟨fset_lt b i _ hb (pieceCode_lt x), by rw [List.length_set]; exact hlen, ?_⟩
  intro j
  rw [fcell_fset b i _ j (pieceCode_lt x), cell_set l hlen i x j]
  by_cases h : j = i ∧ i < 64
  · rw [if_pos h, if_pos h]
  · rw [if_neg h, if_neg h]
    exact hcell j

theorem apply_prefix_rel (b : Nat) (l : Board) (hrel : BRel b l) (m : Move) :
    BRel
      (fset (fset b m.toSq (match m.promoteTo with
        | some pp => pieceCode (some pp)
        | none => fcell b m.fromSq)) m.fromSq 0)
      ((l.set m.toSq (match m.promoteTo with
        | some pp => some pp
        | none => cell l m.fromSq)).set m.fromSq none) := by
  have h1 : BRel
      (fset b m.toSq (match m.promoteTo with
        | some pp => pieceCode (some pp)
        | none => fcell b m.fromSq))
      (l.set m.toSq (match m.promoteTo with
        | some pp => some pp
        | none => cell l m.fromSq)) := by
    cases hpp : m.promoteTo with
    | none =>
      rw [hrel.2.2 m.fromSq]
      exact set_rel b l hrel m.toSq (cell l m.fromSq)
    | some pp => exact set_rel b l hrel m.toSq (some pp)
  exact set_rel _ _ h1 m.fromSq none

theorem fApplyMoveToBoard_rel (b : Nat) (l : Board) (hrel : BRel b l) (m : Move) :
    BRel (fApplyMoveToBoard b m) (applyMoveToBoard l m) := by
  simp only [fApplyMoveToBoard, applyMoveToBoard]
  have h2 := apply_prefix_rel b l hrel m
  by_cases hep : m.type = MoveType.enPassant
  · rw [if_pos hep, if_pos hep]
    have h3 : BRel
        (fset (fset (fset b m.toSq (match m.promoteTo with
          | some pp => pieceCode (some pp)
          | none => fcell b m.fromSq)) m.fromSq 0) m.capturedSq 0)
        (((l.set m.toSq (match m.promoteTo with
          | some pp => some pp
          | none => cell l m.fromSq)).set m.fromSq none).set m.capturedSq none) :=
      set_rel _ _ h2 m.capturedSq none
    by_cases hcs : m.type = MoveType.castleKing ∨ m.type = MoveType.castleQueen
    · rw [if_pos hcs, if_pos hcs, h3.2.2 m.rookFrom]
      exact set_rel _ _ (set_rel _ _ h3 m.rookTo (cell _ m.rookFrom)) m.rookFrom none
    · rw [if_neg hcs, if_neg hcs]
      exact h3
  · rw [if_neg hep, if_neg hep]
    by_cases hcs : m.type = MoveType.castleKing ∨ m.type = MoveType.castleQueen
    · rw [if_pos hcs, if_pos hcs, h2.2.2 m.rookFrom]
      exact set_rel _ _ (set_rel _ _ h2 m.rookTo (cell _ m.rookFrom)) m.rookFrom none
    · rw [if_neg hcs, if_neg hcs]
      exact h2

theorem fGetAllPseudoMoves_eq (b : Nat) (l : Board)
    (hcell : ∀ i, fcell b i = pieceCode (cell l i))
    (color : Color) (cr : CastlingRights) (ep : Option Nat) :
    fGetAllPseudoMoves b color cr ep = _getAllPseudoMoves l color cr ep := by
  simp only [fGetAllPseudoMoves, _getAllPseudoMoves]
  rw [fAppend_eq, fIdxFlat_eq, ← List.range_eq_range', fGetCastlingMoves_eq b l hcell]
  rw [show (fun i => if (fcell b i == 0) = true then []
        else if codeIsColor (fcell b i) color = true then fGetPseudoMoves b i cr ep color
        else [])
      = (fun i => match cell l i with
        | some p => if p.color = color then getPseudoMoves l i cr ep color else []
        | none => []) from funext fun i => ?_]
  rw [hcell i, code_zero_isNone]
  cases hc : cell l i with
  | none => rw [Option.isNone_none, if_pos rfl]
  | some p =>
    rw [Option.isNone_some, if_neg (by simp), code_isColor_eq]
    by_cases hpc : p.color = color
    · rw [if_pos (by simp [hpc])]
      show fGetPseudoMoves b i cr ep color
          = if p.color = color then getPseudoMoves l i cr ep color else []
      rw [if_pos hpc]
      exact fGetPseudoMoves_eq b l hcell i cr ep color
    · rw [if_neg (by simp [hpc])]
      show ([] : List Move) = if p.color = color then getPseudoMoves l i cr ep color else []
      rw [if_neg hpc]

theorem fIsLegal_eq (b : Nat) (e : Engine) (hrel : BRel b e.board)
    (m : Move) (color : Color) :
    fIsLegal b m color = _isLegal e m color := by
  simp only [fIsLegal, _isLegal]
  by_cases hcs : m.type = MoveType.castleKing ∨ m.type = MoveType.castleQueen
  · rw [if_pos hcs, if_pos hcs, fIsInCheck_eq b e.board hrel.2.2]
    by_cases hchk : isInCheck e.board color = true
    · rw [if_pos hchk, if_pos hchk, Bool.false_and, Bool.false_and]
    · rw [if_neg hchk, if_neg hchk, fAll_eq]
      rw [show (fun sq => !fIsAttacked (fApplyMoveToBoard b
            { fromSq := m.fromSq, toSq := sq, type := MoveType.normal }) sq (opp color))
          = (fun sq => !isAttacked (applyMoveToBoard e.board
            { fromSq := m.fromSq, toSq := sq, type := MoveType.normal }) sq (opp color)) from
        funext fun sq => by
          rw [fIsAttacked_eq _ _ (fApplyMoveToBoard_rel b e.board hrel _).2.2]]
      rw [fIsInCheck_eq _ _ (fApplyMoveToBoard_rel b e.board hrel m).2.2]
  · rw [if_neg hcs, if_neg hcs,
      fIsInCheck_eq _ _ (fApplyMoveToBoard_rel b e.board hrel m).2.2]

theorem fGetAllLegalMoves_eq (b : Nat) (e : Engine) (hrel : BRel b e.board) :
    fGetAllLegalMoves b e.turn e.castlingRights e.enPassantTarget = getAllLegalMoves e := by
  unfold fGetAllLegalMoves getAllLegalMoves
  rw [fFilter_eq, fGetAllPseudoMoves_eq b e.board hrel.2.2]
  rw [show (fun m => fIsLegal b m e.turn) = (fun m => _isLegal e m e.turn) from
    funext fun m => fIsLegal_eq b e hrel m e.turn]

theorem code_color : ∀ x : Option Piece,
    (if codeIsColor (pieceCode x) Color.w then Color.w else Color.b)
      = (match x with | some p => p.color | none => Color.b) := by decide

theorem fApplyMoveFull_rel (s : FState) (e : Engine) (hb : BRel s.board e.board)
    (ht : s.turn = e.turn) (hcr : s.castlingRights = e.castlingRights)
    (hep : s.enPassantTarget = e.enPassantTarget) (m : Move) :
    BRel (fApplyMoveFull s m).board (applyMoveFull e m).board
      ∧ (fApplyMoveFull s m).turn = (applyMoveFull e m).turn
      ∧ (fApplyMoveFull s m).castlingRights = (applyMoveFull e m).castlingRights
      ∧ (fApplyMoveFull s m).enPassantTarget = (applyMoveFull e m).enPassantTarget := by
  have hfrom := hb.2.2 m.fromSq
  refine ⟨?_, ?_, ?_, ?_⟩ <;> simp only [fApplyMoveFull, applyMoveFull]
  · exact fApplyMoveToBoard_rel _ _ hb m
  · rw [hfrom, code_color]
  · rw [hcr, hfrom]
    cases hx : cell e.board m.fromSq with
    | none => simp [pieceCode]
    | some p =>
      obtain ⟨pc, pt⟩ := p
      cases pc <;> cases pt <;> simp [pieceCode, codeIsColor]
  · rw [hfrom, code_color]

theorem fSum_congr (g1 g2 : Move → Nat) (h : ∀ m, g1 m = g2 m) :
    ∀ l : List Move, fSum g1 l = fSum g2 l := by
  intro l
  induction l with
  | nil => rfl
  | cons a t ih =>
    show g1 a + fSum g1 t = g2 a + fSum g2 t
    rw [h a, ih]

theorem fPerft_succ (d : Nat) (s : FState) :
    fPerft (d + 1) s = fSum (fun m => fPerft d (fApplyMoveFull s m))
      (fGetAllLegalMoves s.board s.turn s.castlingRights s.enPassantTarget) := rfl

theorem fPerft_eq (d : Nat) :
    ∀ (s : FState) (e : Engine), BRel s.board e.board → s.turn = e.turn →
      s.castlingRights = e.castlingRights → s.enPassantTarget = e.enPassantTarget →
      fPerft d s = perft e d := by
  induction d with
  | zero => intro s e _ _ _ _; rfl
  | succ d ih =>
    intro s e hb ht hcr hep
    rw [fPerft_succ, perft, ht, hcr, hep, fGetAllLegalMoves_eq s.board e hb]
    have hpt : ∀ m, fPerft d (fApplyMoveFull s m) = perft (applyMoveFull e m) d := by
      intro m
      obtain ⟨h1, h2, h3, h4⟩ := fApplyMoveFull_rel s e hb ht hcr hep m
      exact ih _ _ h1 h2 h3 h4
    rw [fSum_congr _ _ hpt, fSum_eq _ _ 0, Nat.zero_add]

end Chess
